import Mathlib

set_option maxHeartbeats 2000000

namespace snooker

noncomputable section

/-! Shallow embedding of the snooker-game physics core.

The C++ float arithmetic is idealised as exact real arithmetic (`ℝ`); machine
`std::size_t` indices and ids are `ℕ`.  Fatal assertions (`assert_that`) are
embedded as `Except String`/`Option` failure values.  Every definition is
translated from the corresponding source function, named after it. -/

/-- Two-dimensional vector, embedding `glm::vec2` (float components idealised
as reals). -/
structure Vec2 where
  x : ℝ
  y : ℝ

noncomputable instance : DecidableEq Vec2 := Classical.decEq _

instance : Add Vec2 := ⟨fun a b => ⟨a.x + b.x, a.y + b.y⟩⟩

instance : Sub Vec2 := ⟨fun a b => ⟨a.x - b.x, a.y - b.y⟩⟩

instance : Neg Vec2 := ⟨fun a => ⟨-a.x, -a.y⟩⟩

instance : Zero Vec2 := ⟨⟨0, 0⟩⟩

instance : SMul ℝ Vec2 := ⟨fun c v => ⟨c * v.x, c * v.y⟩⟩

instance : Inhabited Vec2 := ⟨⟨0, 0⟩⟩

@[simp] theorem Vec2.add_x (a b : Vec2) : (a + b).x = a.x + b.x := rfl

@[simp] theorem Vec2.add_y (a b : Vec2) : (a + b).y = a.y + b.y := rfl

@[simp] theorem Vec2.sub_x (a b : Vec2) : (a - b).x = a.x - b.x := rfl

@[simp] theorem Vec2.sub_y (a b : Vec2) : (a - b).y = a.y - b.y := rfl

@[simp] theorem Vec2.neg_x (a : Vec2) : (-a).x = -a.x := rfl

@[simp] theorem Vec2.neg_y (a : Vec2) : (-a).y = -a.y := rfl

@[simp] theorem Vec2.zero_x : (0 : Vec2).x = 0 := rfl

@[simp] theorem Vec2.zero_y : (0 : Vec2).y = 0 := rfl

@[simp] theorem Vec2.smul_x (c : ℝ) (v : Vec2) : (c • v).x = c * v.x := rfl

@[simp] theorem Vec2.smul_y (c : ℝ) (v : Vec2) : (c • v).y = c * v.y := rfl

theorem Vec2.ext_iff {a b : Vec2} : a = b ↔ a.x = b.x ∧ a.y = b.y := by
  constructor
  · rintro rfl; exact ⟨rfl, rfl⟩
  · rcases a with ⟨ax, ay⟩; rcases b with ⟨bx, by'⟩
    rintro ⟨h1, h2⟩; simp_all

/-- Embeds `glm::dot` for 2d vectors. -/
def Vec2.dot (a b : Vec2) : ℝ := a.x * b.x + a.y * b.y

/-- Embeds `cross_2d` from src/src/collision.cpp. -/
def Vec2.cross (a b : Vec2) : ℝ := a.x * b.y - a.y * b.x

/-- Embeds `glm::length`: Euclidean norm. -/
noncomputable def Vec2.length (v : Vec2) : ℝ := Real.sqrt (v.dot v)

/-- Componentwise division of a vector by a scalar (`glm` `vec / float`). -/
def Vec2.sdiv (v : Vec2) (s : ℝ) : Vec2 := ⟨v.x / s, v.y / s⟩

theorem Vec2.dot_self_nonneg (v : Vec2) : 0 ≤ v.dot v := by
  simp only [Vec2.dot]
  nlinarith [mul_self_nonneg v.x, mul_self_nonneg v.y]

theorem Vec2.length_nonneg (v : Vec2) : 0 ≤ v.length := Real.sqrt_nonneg _

theorem sqrt_of_sq (a b : ℝ) (hb : 0 ≤ b) (h : b * b = a) : Real.sqrt a = b := by
  rw [← h]; exact Real.sqrt_mul_self hb

@[simp] theorem Vec2.smul_zero_vec (c : ℝ) : c • (0 : Vec2) = 0 := by
  simp [Vec2.ext_iff]

@[simp] theorem Vec2.zero_smul_vec (v : Vec2) : (0 : ℝ) • v = 0 := by
  simp [Vec2.ext_iff]

theorem Vec2.smul_smul_vec (c d : ℝ) (v : Vec2) : c • d • v = (c * d) • v := by
  simp [Vec2.ext_iff]; constructor <;> ring

theorem Vec2.length_smul (c : ℝ) (v : Vec2) : (c • v).length = |c| * v.length := by
  simp only [Vec2.length, Vec2.dot, Vec2.smul_x, Vec2.smul_y]
  rw [show c * v.x * (c * v.x) + c * v.y * (c * v.y) = c ^ 2 * (v.x * v.x + v.y * v.y) by ring,
    Real.sqrt_mul (sq_nonneg c), Real.sqrt_sq_eq_abs]

@[simp] theorem Vec2.length_zero : (0 : Vec2).length = 0 := by
  simp [Vec2.length, Vec2.dot]

@[simp] theorem Vec2.add_zero_vec (v : Vec2) : v + 0 = v := by simp [Vec2.ext_iff]

@[simp] theorem Vec2.sub_zero_vec (v : Vec2) : v - 0 = v := by simp [Vec2.ext_iff]

/-! ## Entity store (src/src/id_vector.hpp and src/src/simulation.hpp)

The store is embedded at element type `ℕ`; the `std::unordered_map` id-to-index
table is embedded as a function `ℕ → Option ℕ`. -/

/-- Entity store state, from `id_vector` in src/src/id_vector.hpp (the class
in src/src/simulation.hpp has the same four data members). -/
structure id_vector where
  d_data : List ℕ
  d_data_id : List ℕ
  d_id_to_index : ℕ → Option ℕ
  d_next : ℕ

/-- A default-constructed `id_vector`. -/
def id_vector.empty : id_vector := ⟨[], [], fun _ => none, 0⟩

/-- Embeds `id_vector::is_valid`: the id is a key of the id-to-index map. -/
def id_vector.is_valid (v : id_vector) (i : ℕ) : Bool := (v.d_id_to_index i).isSome

/-- Embeds `id_vector::insert` (named `add_collider` in src/src/simulation.hpp, with
the same body): appends the element, assigns the id `d_next`, records the
mapping and increments `d_next`.  Returns the new id with the new state. -/
def id_vector.insert (v : id_vector) (c : ℕ) : ℕ × id_vector :=
  let i := v.d_next
  let index := v.d_data.length
  (i, { d_data := v.d_data ++ [c]
        d_data_id := v.d_data_id ++ [i]
        d_id_to_index := fun x => if x = i then some index else v.d_id_to_index x
        d_next := v.d_next + 1 })

/-- Embeds `std::swap(l[i], l.back())` on a list. -/
def list_swap_back (l : List ℕ) (i : ℕ) : List ℕ :=
  (l.set i (l.getD (l.length - 1) 0)).set (l.length - 1) (l.getD i 0)

/-- Embeds `id_vector::erase` from src/src/id_vector.hpp: asserts validity (`none`
models the fatal assertion), swaps the doomed slot with the last slot, updates
the map entry for the moved element, erases the doomed id from the map, then
pops the last slot. -/
def id_vector.erase (v : id_vector) (i : ℕ) : Option id_vector :=
  if v.is_valid i then
    let index := (v.d_id_to_index i).getD 0
    let data := list_swap_back v.d_data index
    let data_id := list_swap_back v.d_data_id index
    let m1 := fun x => if x = data_id.getD index 0 then some index else v.d_id_to_index x
    let m2 := fun x => if x = i then none else m1 x
    some ⟨data.dropLast, data_id.dropLast, m2, v.d_next⟩
  else none

/-- Embeds `id_vector::remove_collider` from src/src/simulation.hpp (lines 56–71):
identical to `id_vector.erase` except that the erased id is never removed from
the id-to-index map (the `d_id_to_index.erase(id)` step present in
src/src/id_vector.hpp is absent). -/
def id_vector.remove_collider (v : id_vector) (i : ℕ) : Option id_vector :=
  if v.is_valid i then
    let index := (v.d_id_to_index i).getD 0
    let data := list_swap_back v.d_data index
    let data_id := list_swap_back v.d_data_id index
    let m1 := fun x => if x = data_id.getD index 0 then some index else v.d_id_to_index x
    some ⟨data.dropLast, data_id.dropLast, m1, v.d_next⟩
  else none

/-- Embeds `id_vector::get`: asserts validity (`none` models the fatal assertion) and
reads the backing array at the mapped index. -/
def id_vector.get (v : id_vector) (i : ℕ) : Option ℕ :=
  if v.is_valid i then some (v.d_data.getD ((v.d_id_to_index i).getD 0) 0) else none

/-- The store after `insert 10; insert 20` (ids 0 and 1). -/
def store2 : id_vector := ((id_vector.empty.insert 10).2.insert 20).2

/-- C1: Entity store erase contract.  The claim requires that after erasing an
id the id is invalid and `get` fails fatally.  The `remove_collider`
implementation in src/src/simulation.hpp (cited by the claim) violates this:
it never removes the erased id from the id-to-index map, so after
`remove_collider(0)` on a store holding ids 0 and 1 the erased id 0 is still
reported valid and `get(0)` silently returns the element of id 1 instead of
failing.  The `erase` of src/src/id_vector.hpp does satisfy the contract at
the same input: id 0 becomes invalid and `get(0)` fails. -/
theorem C1_remove_collider_leaves_erased_id_valid :
    (store2.remove_collider 0).map (fun v => (v.is_valid 0, v.get 0))
        = some (true, some 20)
    ∧ (store2.erase 0).map (fun v => (v.is_valid 0, v.get 0))
        = some (false, none) := by
  exact ⟨rfl, rfl⟩

/-! ## Collision geometry / ray casting (src/src/collision.cpp) -/

/-- Embeds `ray` from src/src/collision.hpp. -/
structure ray where
  start : Vec2
  dir : Vec2

/-- Embeds `circle` from src/src/collision.hpp. -/
structure circle where
  centre : Vec2
  radius : ℝ

/-- Embeds `line` from src/src/collision.hpp (`end` is a Lean keyword, so the second
endpoint is named `stop`). -/
structure line where
  start : Vec2
  stop : Vec2

/-- Embeds `box` from src/src/collision.hpp. -/
structure box where
  centre : Vec2
  width : ℝ
  height : ℝ

/-- Embeds `ray_cast(ray, circle)` from src/src/collision.cpp lines 12–28: quadratic
ray–circle intersection.  Early-out when the origin is outside the circle and
the ray points away (`C > 0 && B > 0`), reject a negative discriminant, then
return the smaller root `(-B - sqrt disc) / dot(dir, dir)` if it is
non-negative, else `none`. -/
def ray_cast_circle (r : ray) (c : circle) : Option ℝ :=
  let m := r.start - c.centre
  let B := m.dot r.dir
  let C := m.dot m - c.radius * c.radius
  if C > 0 ∧ B > 0 then none
  else
    let disc := B * B - (r.dir.dot r.dir) * C
    if disc < 0 then none
    else
      let t := (-B - Real.sqrt disc) / (r.dir.dot r.dir)
      if t < 0 then none
      else some t

/-- Embeds `ray_cast(ray, line)` from src/src/collision.cpp lines 30–47: 2d
ray/segment intersection by cross products.  The first branch tests
`|rxs| < 0.0f`, exactly as in the source. -/
def ray_cast_line (r : ray) (l : line) : Option ℝ :=
  let line_dir := l.stop - l.start
  let rxs := r.dir.cross line_dir
  if |rxs| < 0 then none
  else
    let line_to_ray := l.start - r.start
    let t := (line_to_ray.cross line_dir) / rxs
    let u := (line_to_ray.cross r.dir) / rxs
    if t < 0 then none
    else if u < 0 ∨ u > 1 then none
    else some t

/-- Variant of `ray_cast_line` with the dead `|rxs| < 0.0f` rejection branch removed,
used to state that the branch is unreachable. -/
def ray_cast_line_unguarded (r : ray) (l : line) : Option ℝ :=
  let line_dir := l.stop - l.start
  let rxs := r.dir.cross line_dir
  let line_to_ray := l.start - r.start
  let t := (line_to_ray.cross line_dir) / rxs
  let u := (line_to_ray.cross r.dir) / rxs
  if t < 0 then none
  else if u < 0 ∨ u > 1 then none
  else some t

/-- The `best = min(best, *t)` accumulation over optional candidates used by
the composite ray casts (`best` starts at infinity; a final non-finite `best`
is reported as `none`). -/
def acc_min (best cand : Option ℝ) : Option ℝ :=
  match best, cand with
  | none, c => c
  | some b, none => some b
  | some b, some t => some (min b t)

/-- Embeds `ray_cast(ray, box)` from src/src/collision.cpp lines 83–112: the box is
decomposed into the four segments `{tl,tr}`, `{tr,bl}`, `{bl,br}`, `{br,tl}`
(exactly the corner pairs used in the source — the second and fourth are the
box's diagonals, not its right and left edges) and the minimum candidate is
returned. -/
def ray_cast_box (r : ray) (b : box) : Option ℝ :=
  let tl := b.centre + ⟨-b.width / 2, -b.height / 2⟩
  let tr := b.centre + ⟨b.width / 2, -b.height / 2⟩
  let bl := b.centre + ⟨-b.width / 2, b.height / 2⟩
  let br := b.centre + ⟨b.width / 2, b.height / 2⟩
  acc_min (acc_min (acc_min (acc_min none
    (ray_cast_line r ⟨tl, tr⟩))
    (ray_cast_line r ⟨tr, bl⟩))
    (ray_cast_line r ⟨bl, br⟩))
    (ray_cast_line r ⟨br, tl⟩)

/-- Modelled from the claim/spec for comparison: the minimum of the ray–segment
casts against the box's four boundary edges top `{tl,tr}`, right `{tr,br}`,
bottom `{bl,br}` and left `{tl,bl}`. -/
def ray_cast_box_edges (r : ray) (b : box) : Option ℝ :=
  let tl := b.centre + ⟨-b.width / 2, -b.height / 2⟩
  let tr := b.centre + ⟨b.width / 2, -b.height / 2⟩
  let bl := b.centre + ⟨-b.width / 2, b.height / 2⟩
  let br := b.centre + ⟨b.width / 2, b.height / 2⟩
  acc_min (acc_min (acc_min (acc_min none
    (ray_cast_line r ⟨tl, tr⟩))
    (ray_cast_line r ⟨tr, br⟩))
    (ray_cast_line r ⟨bl, br⟩))
    (ray_cast_line r ⟨tl, bl⟩)

/-- A parameter `u` along the ray meets the circle boundary. -/
def on_circle (r : ray) (c : circle) (u : ℝ) : Prop :=
  ((r.start + u • r.dir) - c.centre).length = c.radius

/-! ## Simulation (src/src/simulation.cpp)

The `std::variant` body and shape tags used by simulation.cpp are declared in
a header missing from the sources; the two inductives below are modelled from
the spec's data model (§3): body-kind static/attractor/dynamic(mass, velocity),
shape-kind circle(radius)/box(width, height)/line(start, end offsets). -/

/-- Modelled from the spec: the body-kind variant (`static_body`,
`attractor_body`, `dynamic_body{vel, mass}`) dispatched by simulation.cpp via
`std::holds_alternative`/`std::get`. -/
inductive body_kind
  | static_body
  | attractor_body
  | dynamic_body (vel : Vec2) (mass : ℝ)

/-- Modelled from the spec: the shape-kind variant (`circle_shape{radius}`,
`box_shape{width, height}`, `line_shape{start, end}` with endpoints as offsets
from the body position) dispatched by simulation.cpp. -/
inductive shape_kind
  | circle_shape (radius : ℝ)
  | box_shape (width height : ℝ)
  | line_shape (start stop : Vec2)

/-- Embeds `collider`: position, body tag, shape tag (spec §3, used throughout
simulation.cpp). -/
structure collider where
  pos : Vec2
  body : body_kind
  shape : shape_kind

instance : Inhabited collider :=
  ⟨⟨0, body_kind.static_body, shape_kind.circle_shape 0⟩⟩

/-- Embeds `std::holds_alternative<dynamic_body>(c.body)`. -/
def collider.is_dynamic (c : collider) : Bool :=
  match c.body with
  | body_kind.dynamic_body _ _ => true
  | _ => false

/-- Embeds `std::holds_alternative<attractor_body>(c.body)`. -/
def collider.is_attractor (c : collider) : Bool :=
  match c.body with
  | body_kind.attractor_body => true
  | _ => false

/-- Embeds `safe_inverse` from simulation.cpp: `0` maps to `0`, otherwise `1/x`. -/
def safe_inverse (x : ℝ) : ℝ := if x = 0 then 0 else 1 / x

/-- Embeds `inv_mass` from simulation.cpp: non-dynamic bodies have inverse mass 0. -/
def inv_mass (c : collider) : ℝ :=
  match c.body with
  | body_kind.dynamic_body _ mass => safe_inverse mass
  | _ => 0

/-- Embeds `velocity` from simulation.cpp: non-dynamic bodies report zero velocity. -/
def velocity (c : collider) : Vec2 :=
  match c.body with
  | body_kind.dynamic_body vel _ => vel
  | _ => 0

/-- Embeds `apply_impulse` from simulation.cpp lines 40–46: only a dynamic body's
velocity changes, by `impulse * safe_inverse(mass)`. -/
def apply_impulse (c : collider) (impulse : Vec2) : collider :=
  match c.body with
  | body_kind.dynamic_body vel mass =>
      { c with body := body_kind.dynamic_body (vel + safe_inverse mass • impulse) mass }
  | _ => c

/-- Embeds `collision_info` from simulation.cpp: contact normal and penetration. -/
structure collision_info where
  normal : Vec2
  penetration : ℝ

/-- Embeds `flip_normal` from simulation.cpp. -/
def flip_normal (info : collision_info) : collision_info :=
  { info with normal := -info.normal }

/-- Embeds `collision_circle_circle` from simulation.cpp lines 55–65. -/
def collision_circle_circle (pos_a pos_b : Vec2) (ra rb : ℝ) :
    Option collision_info :=
  let delta := pos_b - pos_a
  let dist := delta.length
  let r := ra + rb
  if dist < r then
    some ⟨if dist > 1e-6 then delta.sdiv dist else ⟨1, 0⟩, r - dist⟩
  else none

/-- Embeds `glm::clamp` on a scalar. -/
def clampR (x lo hi : ℝ) : ℝ := min (max x lo) hi

/-- Embeds `glm::clamp` componentwise on a 2d vector. -/
def clampV (p lo hi : Vec2) : Vec2 := ⟨clampR p.x lo.x hi.x, clampR p.y lo.y hi.y⟩

/-- Embeds `collision_circle_box` from simulation.cpp lines 67–84: clamp the circle
centre into the box; if the closest point is within the radius and differs
from the centre, produce the contact; if the clamp was a no-op the source hits
`assert_that(false, "TODO: make this collision happen")`, embedded as
`Except.error`. -/
def collision_circle_box (pos_a pos_b : Vec2) (ra w h : ℝ) :
    Except String (Option collision_info) :=
  let half_extents : Vec2 := ⟨w / 2, h / 2⟩
  let P := clampV pos_a (pos_b - half_extents) (pos_b + half_extents)
  let delta := P - pos_a
  let dist := delta.length
  if dist < ra then
    if pos_a ≠ P then
      Except.ok (some ⟨if dist > 1e-6 then delta.sdiv dist else ⟨1, 0⟩, ra - dist⟩)
    else Except.error "TODO: make this collision happen"
  else Except.ok none

/-- Embeds `collision_circle_line` from simulation.cpp lines 86–110. -/
def collision_circle_line (pos_a pos_b : Vec2) (ra : ℝ) (ls le : Vec2) :
    Option collision_info :=
  let circle_pos := pos_a
  let line_start := pos_b + ls
  let line_end := pos_b + le
  let diff :=
    if line_start = line_end then line_start - circle_pos
    else
      let line_vec := line_end - line_start
      let line_len_sq := line_vec.dot line_vec
      let t := clampR (((circle_pos - line_start).dot line_vec) / line_len_sq) 0 1
      (line_start + t • line_vec) - circle_pos
  let dist := diff.length
  if dist ≥ ra then none
  else some ⟨if dist > 0 then diff.sdiv dist else ⟨1, 0⟩, ra - dist⟩

/-- Embeds `collision_test` from simulation.cpp lines 131–172: short-circuit when
neither body is dynamic, then dispatch on the ordered shape pair; box–box,
box–line and line–line hit `assert_that(false, ...)`, embedded as
`Except.error`; symmetric pairs swap the arguments and flip the normal. -/
def collision_test (a b : collider) : Except String (Option collision_info) :=
  if ¬ a.is_dynamic ∧ ¬ b.is_dynamic then Except.ok none
  else
    match a.shape, b.shape with
    | shape_kind.circle_shape ra, shape_kind.circle_shape rb =>
        Except.ok (collision_circle_circle a.pos b.pos ra rb)
    | shape_kind.circle_shape ra, shape_kind.box_shape w h =>
        collision_circle_box a.pos b.pos ra w h
    | shape_kind.circle_shape ra, shape_kind.line_shape ls le =>
        Except.ok (collision_circle_line a.pos b.pos ra ls le)
    | shape_kind.box_shape w h, shape_kind.circle_shape rb =>
        (collision_circle_box b.pos a.pos rb w h).map (Option.map flip_normal)
    | shape_kind.box_shape _ _, shape_kind.box_shape _ _ =>
        Except.error "unhandled collision type! box-box"
    | shape_kind.box_shape _ _, shape_kind.line_shape _ _ =>
        Except.error "unhandled collision type! box-line"
    | shape_kind.line_shape ls le, shape_kind.circle_shape rb =>
        Except.ok ((collision_circle_line b.pos a.pos rb ls le).map flip_normal)
    | shape_kind.line_shape _ _, shape_kind.box_shape _ _ =>
        Except.error "unhandled collision type! box-line"
    | shape_kind.line_shape _ _, shape_kind.line_shape _ _ =>
        Except.error "unhandled collision type! line-line"

/-- Embeds `contact` from simulation.cpp lines 7–12. -/
structure contact where
  a : ℕ
  b : ℕ
  normal : Vec2
  penetration : ℝ

instance : Inhabited contact := ⟨⟨0, 0, 0, 0⟩⟩

/-- The bias vector `b[i]` built by `solve_contacts` (simulation.cpp lines
206–219): restitution bias when the relative normal velocity is below
`-1e-6`, plus the Baumgarte positional bias `0.2 * max(penetration, 0)`. -/
def bias_vec (colliders : List collider) (contacts : List contact)
    (restitution : ℝ) (i : ℕ) : ℝ :=
  let ci := contacts.getD i default
  let rv := velocity (colliders.getD ci.b default) - velocity (colliders.getD ci.a default)
  let rel_vel := rv.dot ci.normal
  (if rel_vel < -1e-6 then -(1 + restitution) * rel_vel else 0)
    + 0.2 * max ci.penetration 0

/-- The constraint matrix `A[i][j]` built by `solve_contacts` (simulation.cpp
lines 222–244); the source's `b1 >= 0` conjunct on the unsigned index is kept
verbatim. -/
def a_matrix (colliders : List collider) (contacts : List contact)
    (i j : ℕ) : ℝ :=
  let ci := contacts.getD i default
  let cj := contacts.getD j default
  let a1 := ci.a
  let b1 := ci.b
  let a2 := cj.a
  let b2 := cj.b
  let d := ci.normal.dot cj.normal
  (if a1 = a2 then d * inv_mass (colliders.getD a1 default) else 0)
    - (if 0 ≤ b1 ∧ b1 = a2 then d * inv_mass (colliders.getD b1 default) else 0)
    - (if a1 = b2 then d * inv_mass (colliders.getD a1 default) else 0)
    + (if 0 ≤ b1 ∧ b1 = b2 then d * inv_mass (colliders.getD b1 default) else 0)

/-- One pivot step `k` of the naive Gauss-Jordan elimination in
`solve_contacts` (simulation.cpp lines 248–267): skip near-zero pivots
(`|diag| < 1e-8`), scale row `k` (columns `k..N-1`) and `b[k]`, then eliminate
column `k` from every other row. -/
def gauss_step (N k : ℕ) (Ab : (ℕ → ℕ → ℝ) × (ℕ → ℝ)) :
    (ℕ → ℕ → ℝ) × (ℕ → ℝ) :=
  let A := Ab.1
  let b := Ab.2
  let diag := A k k
  if |diag| < 1e-8 then Ab
  else
    let inv_diag := 1 / diag
    let A1 := fun r c => if r = k ∧ k ≤ c ∧ c < N then A r c * inv_diag else A r c
    let b1 := fun i => if i = k then b i * inv_diag else b i
    let A2 := fun r c =>
      if r ≠ k ∧ r < N ∧ k ≤ c ∧ c < N then A1 r c - A1 r k * A1 k c else A1 r c
    let b2 := fun i => if i ≠ k ∧ i < N then b1 i - A1 i k * b1 k else b1 i
    (A2, b2)

/-- The full elimination loop `for k in [0, N)`. -/
def gauss (N : ℕ) (Ab : (ℕ → ℕ → ℝ) × (ℕ → ℝ)) : (ℕ → ℕ → ℝ) × (ℕ → ℝ) :=
  (List.range N).foldl (fun s k => gauss_step N k s) Ab

/-- One iteration of the impulse-application loop of `solve_contacts`
(simulation.cpp lines 271–276): apply `-j[i]*normal` to body `a` and
`j[i]*normal` to body `b` of contact `i`. -/
def impulse_one (contacts : List contact) (j : ℕ → ℝ) (cs : List collider)
    (i : ℕ) : List collider :=
  let c := contacts.getD i default
  let impulse := j i • c.normal
  let cs1 := cs.set c.a (apply_impulse (cs.getD c.a default) (-impulse))
  cs1.set c.b (apply_impulse (cs1.getD c.b default) impulse)

/-- The impulse-application loop of `solve_contacts`. -/
def apply_impulses (colliders : List collider) (contacts : List contact)
    (j : ℕ → ℝ) : List collider :=
  (List.range contacts.length).foldl (impulse_one contacts j) colliders

/-- Embeds `solve_contacts` from simulation.cpp lines 189–277: early-out on zero
contacts, build `A` and `b`, run the elimination (after which `b` stores the
impulse magnitudes `j`), and apply the impulses. -/
def solve_contacts (colliders : List collider) (contacts : List contact)
    (restitution : ℝ) : List collider :=
  let N := contacts.length
  if N = 0 then colliders
  else
    let j := (gauss N (a_matrix colliders contacts, bias_vec colliders contacts restitution)).2
    apply_impulses colliders contacts j

/-- One iteration of the `fix_positions` loop (simulation.cpp lines 279–288):
for a contact with positive penetration, displace the two bodies apart along
the normal in proportion to their inverse masses, scaled by the 0.4
correction factor. -/
def fix_one (cs : List collider) (c : contact) : List collider :=
  if c.penetration ≤ 0 then cs
  else
    let inv_a := inv_mass (cs.getD c.a default)
    let inv_b := inv_mass (cs.getD c.b default)
    let correction := ((c.penetration * 0.4) • c.normal).sdiv (inv_a + inv_b)
    let ca := cs.getD c.a default
    let cs1 := cs.set c.a { ca with pos := ca.pos - inv_a • correction }
    let cb := cs1.getD c.b default
    cs1.set c.b { cb with pos := cb.pos + inv_b • correction }

/-- Embeds `fix_positions` from simulation.cpp lines 279–288. -/
def fix_positions (colliders : List collider) (contacts : List contact) :
    List collider :=
  contacts.foldl fix_one colliders

/-- Position-integration phase of a substep (simulation.cpp lines 300–305):
every dynamic body's position advances by `vel * dt`. -/
def integrate (dt : ℝ) (colliders : List collider) : List collider :=
  colliders.map fun c =>
    match c.body with
    | body_kind.dynamic_body vel _ => { c with pos := c.pos + dt • vel }
    | _ => c

/-- The attractor velocity update of simulation.cpp lines 318–335: the dynamic
body's velocity gains `direction * strength² * dt` and is then scaled by
`(1 - 0.2 * strength * dt)`; a non-dynamic body is untouched (the source's
`std::get<dynamic_body>` is only reached for a dynamic body). -/
def attract_update (dt strength : ℝ) (direction : Vec2) (c : collider) : collider :=
  match c.body with
  | body_kind.dynamic_body vel mass =>
      { c with body := (body_kind.dynamic_body
          ((1 - 0.2 * strength * dt) • (vel + (strength * strength * dt) • direction)) mass) }
  | _ => c

/-- The body of the pair loop in `simulation::step` (simulation.cpp lines
310–341): test the pair `(i, j)`; on a collision, attractor–attractor pairs do
nothing, a pair whose first (resp. second) member is an attractor pulls the
other body instead of recording a contact, and any other pair appends a
contact. -/
def pair_step (dt : ℝ) (i j : ℕ) (s : List collider × List contact) :
    Except String (List collider × List contact) :=
  let cs := s.1
  let contacts := s.2
  let ci := cs.getD i default
  let cj := cs.getD j default
  match collision_test ci cj with
  | Except.error msg => Except.error msg
  | Except.ok none => Except.ok (cs, contacts)
  | Except.ok (some col) =>
    if ci.is_attractor ∧ cj.is_attractor then Except.ok (cs, contacts)
    else if ci.is_attractor then
      let strength := col.penetration * 20
      Except.ok (cs.set j (attract_update dt strength (-col.normal) cj), contacts)
    else if cj.is_attractor then
      let strength := col.penetration * 20
      Except.ok (cs.set i (attract_update dt strength col.normal ci), contacts)
    else
      Except.ok (cs, contacts ++ [⟨i, j, col.normal, col.penetration⟩])

/-- The ordered pair list of the nested loops `for i; for j = i+1 ...`. -/
def all_pairs (n : ℕ) : List (ℕ × ℕ) :=
  (List.range n).flatMap fun i => ((List.range n).filter (fun j => i < j)).map (fun j => (i, j))

/-- Sequential processing of the pair list (phase 2 of a substep). -/
def process_pairs (dt : ℝ) (ps : List (ℕ × ℕ)) (s : List collider × List contact) :
    Except String (List collider × List contact) :=
  match ps with
  | [] => Except.ok s
  | ij :: rest => (pair_step dt ij.1 ij.2 s).bind (process_pairs dt rest)

/-- The damping phase of a substep (simulation.cpp lines 349–359): every
dynamic body's velocity is scaled by `exp(-1.1 * dt)` and zeroed when its
length falls below `0.01`. -/
def damp (dt : ℝ) (colliders : List collider) : List collider :=
  let damping := Real.exp (-1.1 * dt)
  colliders.map fun c =>
    match c.body with
    | body_kind.dynamic_body vel mass =>
        let vel1 := damping • vel
        { c with body := (body_kind.dynamic_body
            (if vel1.length < 0.01 then 0 else vel1) mass) }
    | _ => c

/-- One substep of `simulation::step` (simulation.cpp lines 299–360):
integrate, generate contacts / apply attraction, solve contacts (restitution
defaulted to 0.8 at the call site), correct positions, damp. -/
def substep (dt : ℝ) (colliders : List collider) : Except String (List collider) :=
  let cs1 := integrate dt colliders
  (process_pairs dt (all_pairs cs1.length) (cs1, [])).map fun s =>
    damp dt (fix_positions (solve_contacts s.1 s.2 0.8) s.2)

/-- Runs `n` successive substeps. -/
def run_substeps (dt : ℝ) (n : ℕ) (colliders : List collider) :
    Except String (List collider) :=
  match n with
  | 0 => Except.ok colliders
  | Nat.succ k => (substep dt colliders).bind (run_substeps dt k)

/-- Embeds `simulation::step(frame_dt)` from simulation.cpp lines 292–361: 20
substeps of length `frame_dt / 20`. -/
def step (frame_dt : ℝ) (colliders : List collider) :
    Except String (List collider) :=
  run_substeps (frame_dt / 20) 20 colliders

/-- Runs `n` successive calls to `step` (the frame loop). -/
def nsteps (frame_dt : ℝ) (n : ℕ) (colliders : List collider) :
    Except String (List collider) :=
  match n with
  | 0 => Except.ok colliders
  | Nat.succ k => (step frame_dt colliders).bind (nsteps frame_dt k)

/-! ## Theorems -/

/-- C10: the rejection branch of `ray_cast(ray, line)` tests `|rxs| < 0.0f`,
which no input satisfies (an absolute value is never negative), so the
function always reaches the divisions by `rxs`; for parallel ray/segment
inputs — the segment direction a multiple of the ray direction, including
degenerate zero-length segments — that divisor is exactly zero, so the
division is unguarded rather than returning `none`. -/
theorem C10_parallel_guard_unsatisfiable :
    (∀ (r : ray) (l : line), ¬ (|r.dir.cross (l.stop - l.start)| < 0))
    ∧ (∀ (r : ray) (l : line), ray_cast_line r l = ray_cast_line_unguarded r l)
    ∧ (∀ (r : ray) (l : line) (k : ℝ), l.stop - l.start = k • r.dir →
        r.dir.cross (l.stop - l.start) = 0)
    ∧ (∀ (r : ray) (l : line), l.stop = l.start →
        r.dir.cross (l.stop - l.start) = 0) := by
  refine ⟨fun r l => not_lt.2 (abs_nonneg _), fun r l => ?_, fun r l k h => ?_, fun r l h => ?_⟩
  · simp only [ray_cast_line, ray_cast_line_unguarded,
      if_neg (not_lt.2 (abs_nonneg (r.dir.cross (l.stop - l.start))))]
  · rw [h]; simp [Vec2.cross]; ring
  · rw [h]; simp [Vec2.cross]

/-- Witness for C10 at a concrete parallel ray/segment pair. -/
theorem C10_witness :
    Vec2.cross ⟨1, 0⟩ ((⟨3, 5⟩ : Vec2) - ⟨1, 5⟩) = 0 := by
  have h : ((⟨3, 5⟩ : Vec2) - ⟨1, 5⟩) = (2 : ℝ) • (⟨1, 0⟩ : Vec2) := by
    simp [Vec2.ext_iff]
    norm_num
  exact C10_parallel_guard_unsatisfiable.2.2.1 ⟨⟨0, 0⟩, ⟨1, 0⟩⟩ ⟨⟨1, 5⟩, ⟨3, 5⟩⟩ 2 h

/-- A dynamic circle of radius 1 at the origin. -/
def ballA : collider :=
  ⟨⟨0, 0⟩, body_kind.dynamic_body 0 1, shape_kind.circle_shape 1⟩

/-- A static circle of radius 1 at `(1.5, 0)`. -/
def ballB : collider :=
  ⟨⟨1.5, 0⟩, body_kind.static_body, shape_kind.circle_shape 1⟩

theorem sqrt_225 : Real.sqrt 2.25 = 1.5 :=
  sqrt_of_sq _ _ (by norm_num) (by norm_num)

theorem ccc_eval :
    collision_circle_circle ⟨0, 0⟩ ⟨1.5, 0⟩ 1 1 = some ⟨⟨1, 0⟩, 0.5⟩ := by
  have hd : ((⟨1.5, 0⟩ : Vec2) - ⟨0, 0⟩).length = 1.5 := by
    simp only [Vec2.length, Vec2.dot, Vec2.sub_x, Vec2.sub_y]
    rw [show ((1.5 : ℝ) - 0) * (1.5 - 0) + (0 - 0) * (0 - 0) = 2.25 by norm_num]
    exact sqrt_225
  simp only [collision_circle_circle, hd]
  rw [if_pos (by norm_num : (1.5 : ℝ) < 1 + 1), if_pos (by norm_num : (1.5 : ℝ) > 1e-6)]
  simp only [Option.some_inj, Vec2.sdiv, Vec2.sub_x, Vec2.sub_y]
  norm_num

theorem ccc_eval_swapped :
    collision_circle_circle ⟨1.5, 0⟩ ⟨0, 0⟩ 1 1 = some ⟨⟨-1, 0⟩, 0.5⟩ := by
  have hd : ((⟨0, 0⟩ : Vec2) - ⟨1.5, 0⟩).length = 1.5 := by
    simp only [Vec2.length, Vec2.dot, Vec2.sub_x, Vec2.sub_y]
    rw [show ((0 : ℝ) - 1.5) * (0 - 1.5) + (0 - 0) * (0 - 0) = 2.25 by norm_num]
    exact sqrt_225
  simp only [collision_circle_circle, hd]
  rw [if_pos (by norm_num : (1.5 : ℝ) < 1 + 1), if_pos (by norm_num : (1.5 : ℝ) > 1e-6)]
  simp only [Option.some_inj, Vec2.sdiv, Vec2.sub_x, Vec2.sub_y]
  norm_num

/-- Dispatch of `collision_test` for two circle shapes with at least one
dynamic body: the guard fails and the circle–circle case runs. -/
theorem collision_test_circles (a b : collider) (ra rb : ℝ)
    (ha : a.shape = shape_kind.circle_shape ra) (hb : b.shape = shape_kind.circle_shape rb)
    (hdyn : a.is_dynamic = true ∨ b.is_dynamic = true) :
    collision_test a b = Except.ok (collision_circle_circle a.pos b.pos ra rb) := by
  rcases a with ⟨pa, ba, sa⟩
  rcases b with ⟨pb, bb, sb⟩
  simp only at ha hb
  subst ha hb
  rcases hdyn with h | h
  · simp only [collision_test, h]
    simp
  · simp only [collision_test, h]
    simp

/-- Shows `collision_circle_circle` reports a contact iff the centre distance is
below the radius sum. -/
theorem ccc_some_iff (pos_a pos_b : Vec2) (ra rb : ℝ) :
    (∃ info, collision_circle_circle pos_a pos_b ra rb = some info)
      ↔ (pos_b - pos_a).length < ra + rb := by
  constructor
  · rintro ⟨info, hinfo⟩
    by_contra hlt
    simp only [collision_circle_circle, if_neg hlt] at hinfo
    exact Option.noConfusion hinfo
  · intro hlt
    exact ⟨⟨if (pos_b - pos_a).length > 1e-6 then
        (pos_b - pos_a).sdiv (pos_b - pos_a).length else ⟨1, 0⟩,
        ra + rb - (pos_b - pos_a).length⟩,
      by simp only [collision_circle_circle, if_pos hlt]⟩

/-- Penetration and normal of a reported circle–circle contact. -/
theorem ccc_some_spec (pos_a pos_b : Vec2) (ra rb : ℝ) (info : collision_info)
    (h : collision_circle_circle pos_a pos_b ra rb = some info) :
    info.penetration = ra + rb - (pos_b - pos_a).length
    ∧ ((pos_b - pos_a).length > 1e-6 →
        info.normal = (pos_b - pos_a).sdiv (pos_b - pos_a).length) := by
  by_cases hlt : (pos_b - pos_a).length < ra + rb
  · simp only [collision_circle_circle, if_pos hlt, Option.some_inj] at h
    subst h
    refine ⟨rfl, fun hgt => ?_⟩
    simp only [if_pos hgt]
  · simp only [collision_circle_circle, if_neg hlt] at h
    exact Option.noConfusion h

/-- C2: circle–circle narrow phase.  For two circle bodies with at least one
dynamic, `collision_test` runs `collision_circle_circle`; a contact is
reported iff the centre distance is strictly below the radius sum, in which
case the penetration is `r_a + r_b − d` and the normal is `(B.pos − A.pos)/d`
(the fallback `(1,0)` when `d ≤ 1e-6`).  Two radius-1 circles 1.5 apart along
x give normal `(1,0)` (resp. `(-1,0)` swapped) and penetration 0.5, and at
centre distance ≥ 2 such circles report no contact. -/
theorem C2_circle_circle_narrow_phase :
    (∀ (a b : collider) (ra rb : ℝ), a.shape = shape_kind.circle_shape ra →
      b.shape = shape_kind.circle_shape rb →
      (a.is_dynamic = true ∨ b.is_dynamic = true) →
      collision_test a b = Except.ok (collision_circle_circle a.pos b.pos ra rb)
      ∧ ((∃ info, collision_circle_circle a.pos b.pos ra rb = some info)
          ↔ (b.pos - a.pos).length < ra + rb)
      ∧ (∀ info, collision_circle_circle a.pos b.pos ra rb = some info →
          info.penetration = ra + rb - (b.pos - a.pos).length
          ∧ ((b.pos - a.pos).length > 1e-6 →
              info.normal = (b.pos - a.pos).sdiv (b.pos - a.pos).length)))
    ∧ collision_test ballA ballB = Except.ok (some ⟨⟨1, 0⟩, 0.5⟩)
    ∧ collision_test ballB ballA = Except.ok (some ⟨⟨-1, 0⟩, 0.5⟩)
    ∧ (∀ pa pb : Vec2, 2 ≤ (pb - pa).length →
        collision_circle_circle pa pb 1 1 = none) := by
  refine ⟨fun a b ra rb ha hb hdyn =>
    ⟨collision_test_circles a b ra rb ha hb hdyn, ccc_some_iff _ _ _ _,
      fun info hinfo => ccc_some_spec _ _ _ _ info hinfo⟩, ?_, ?_, fun pa pb h => ?_⟩
  · rw [show collision_test ballA ballB
        = Except.ok (collision_circle_circle ⟨0, 0⟩ ⟨1.5, 0⟩ 1 1) from rfl, ccc_eval]
  · rw [show collision_test ballB ballA
        = Except.ok (collision_circle_circle ⟨1.5, 0⟩ ⟨0, 0⟩ 1 1) from rfl, ccc_eval_swapped]
  · simp only [collision_circle_circle]
    rw [if_neg]
    push_neg
    linarith

/-- Witness for C2: the general part applied to the concrete radius-1 pair. -/
theorem C2_witness :
    collision_test ballA ballB
      = Except.ok (collision_circle_circle ballA.pos ballB.pos 1 1) :=
  (C2_circle_circle_narrow_phase.1 ballA ballB 1 1 rfl rfl (Or.inl rfl)).1

@[simp] theorem Vec2.sub_self (v : Vec2) : v - v = 0 := by
  simp [Vec2.ext_iff]

/-- C9: unhandled-geometry fatality.  With at least one dynamic body, the
collision test hits the fatal assertion for box–box and line–line shape
pairs, and in the circle–box case whenever the circle centre lies within the
box bounds (the clamp is a no-op) for a positive circle radius.  Conversely
when neither body is dynamic the test short-circuits to "no contact" for
every shape pair, performing no shape test and raising no error. -/
theorem C9_unhandled_geometry_fatality :
    (∀ a b : collider, (a.is_dynamic = true ∨ b.is_dynamic = true) →
      (∀ w1 h1 w2 h2, a.shape = shape_kind.box_shape w1 h1 →
        b.shape = shape_kind.box_shape w2 h2 →
        collision_test a b = Except.error "unhandled collision type! box-box")
      ∧ (∀ s1 e1 s2 e2, a.shape = shape_kind.line_shape s1 e1 →
        b.shape = shape_kind.line_shape s2 e2 →
        collision_test a b = Except.error "unhandled collision type! line-line")
      ∧ (∀ ra w h, a.shape = shape_kind.circle_shape ra → 0 < ra →
          b.shape = shape_kind.box_shape w h →
          b.pos.x - w / 2 ≤ a.pos.x → a.pos.x ≤ b.pos.x + w / 2 →
          b.pos.y - h / 2 ≤ a.pos.y → a.pos.y ≤ b.pos.y + h / 2 →
          collision_test a b = Except.error "TODO: make this collision happen"))
    ∧ (∀ a b : collider, a.is_dynamic = false → b.is_dynamic = false →
        collision_test a b = Except.ok none) := by
  have hguard : ∀ a b : collider, (a.is_dynamic = true ∨ b.is_dynamic = true) →
      ¬ (¬ (a.is_dynamic = true) ∧ ¬ (b.is_dynamic = true)) := by
    rintro a b (h | h) <;> simp [h]
  constructor
  · intro a b hdyn
    refine ⟨fun w1 h1 w2 h2 ha hb => ?_, fun s1 e1 s2 e2 ha hb => ?_,
      fun ra w h ha hra hb hx1 hx2 hy1 hy2 => ?_⟩
    · rcases a with ⟨pa, ba, sa⟩
      rcases b with ⟨pb, bb, sb⟩
      simp only at ha hb
      subst ha hb
      simp only [collision_test, if_neg (hguard _ _ hdyn)]
    · rcases a with ⟨pa, ba, sa⟩
      rcases b with ⟨pb, bb, sb⟩
      simp only at ha hb
      subst ha hb
      simp only [collision_test, if_neg (hguard _ _ hdyn)]
    · have hP : clampV a.pos (b.pos - ⟨w / 2, h / 2⟩) (b.pos + ⟨w / 2, h / 2⟩) = a.pos := by
        simp only [clampV, clampR, Vec2.sub_x, Vec2.sub_y, Vec2.add_x, Vec2.add_y,
          Vec2.ext_iff]
        constructor
        · rw [max_eq_left hx1, min_eq_left hx2]
        · rw [max_eq_left hy1, min_eq_left hy2]
      rcases a with ⟨pa, ba, sa⟩
      rcases b with ⟨pb, bb, sb⟩
      simp only at ha hb hP hx1 hx2 hy1 hy2
      subst ha hb
      simp only [collision_test, if_neg (hguard _ _ hdyn)]
      simp only [collision_circle_box, hP, Vec2.sub_self, Vec2.length_zero]
      rw [if_pos hra, if_neg (by simp)]
  · intro a b ha hb
    simp only [collision_test, ha, hb]
    simp

/-- A dynamic unit box at the origin (shape pairs with it are unhandled). -/
def dynbox : collider := ⟨⟨0, 0⟩, body_kind.dynamic_body 0 1, shape_kind.box_shape 1 1⟩

/-- A static unit box at `(3, 0)`. -/
def statbox : collider := ⟨⟨3, 0⟩, body_kind.static_body, shape_kind.box_shape 1 1⟩

/-- A dynamic line segment body at the origin. -/
def dynline : collider :=
  ⟨⟨0, 0⟩, body_kind.dynamic_body 0 1, shape_kind.line_shape ⟨0, 0⟩ ⟨1, 0⟩⟩

/-- A static line segment body at `(3, 0)`. -/
def statline : collider :=
  ⟨⟨3, 0⟩, body_kind.static_body, shape_kind.line_shape ⟨0, 0⟩ ⟨1, 0⟩⟩

/-- A static 4×4 box slightly offset from the origin; `ballA`'s centre lies
inside its bounds. -/
def bigbox : collider := ⟨⟨0.2, 0⟩, body_kind.static_body, shape_kind.box_shape 4 4⟩

/-- Witness for C9 at concrete shape pairs. -/
theorem C9_witness :
    collision_test dynbox statbox = Except.error "unhandled collision type! box-box"
    ∧ collision_test dynline statline = Except.error "unhandled collision type! line-line"
    ∧ collision_test ballA bigbox = Except.error "TODO: make this collision happen"
    ∧ collision_test statbox statline = Except.ok none := by
  refine ⟨?_, ?_, ?_, ?_⟩
  · exact (C9_unhandled_geometry_fatality.1 dynbox statbox (Or.inl rfl)).1 1 1 1 1 rfl rfl
  · exact (C9_unhandled_geometry_fatality.1 dynline statline (Or.inl rfl)).2.1
      ⟨0, 0⟩ ⟨1, 0⟩ ⟨0, 0⟩ ⟨1, 0⟩ rfl rfl
  · exact (C9_unhandled_geometry_fatality.1 ballA bigbox (Or.inl rfl)).2.2 1 4 4 rfl
      (by norm_num) rfl (by norm_num [ballA, bigbox]) (by norm_num [ballA, bigbox])
      (by norm_num [ballA, bigbox]) (by norm_num [ballA, bigbox])
  · exact C9_unhandled_geometry_fatality.2 statbox statline rfl rfl

theorem sqrt_eq_iff_of_nonneg (x b : ℝ) (hx : 0 ≤ x) (hb : 0 ≤ b) :
    Real.sqrt x = b ↔ x = b * b := by
  constructor
  · intro h
    rw [← h]
    exact (Real.mul_self_sqrt hx).symm
  · intro h
    exact sqrt_of_sq x b hb h.symm

/-- Being on the circle boundary at ray parameter `u` is equivalent to the
quadratic equation solved by `ray_cast(ray, circle)`. -/
theorem on_circle_iff_quad (r : ray) (c : circle) (u : ℝ) (hr : 0 ≤ c.radius) :
    on_circle r c u ↔
      (r.dir.dot r.dir) * (u * u) + 2 * ((r.start - c.centre).dot r.dir) * u
        + ((r.start - c.centre).dot (r.start - c.centre) - c.radius * c.radius) = 0 := by
  have hexp : ((r.start + u • r.dir) - c.centre).dot ((r.start + u • r.dir) - c.centre)
      = (r.dir.dot r.dir) * (u * u) + 2 * ((r.start - c.centre).dot r.dir) * u
        + ((r.start - c.centre).dot (r.start - c.centre)) := by
    simp only [Vec2.dot, Vec2.add_x, Vec2.add_y, Vec2.sub_x, Vec2.sub_y,
      Vec2.smul_x, Vec2.smul_y]
    ring
  rw [on_circle, Vec2.length,
    sqrt_eq_iff_of_nonneg _ _ (Vec2.dot_self_nonneg _) hr, hexp]
  constructor <;> intro h <;> linarith

/-- C3 counterexample: a ray starting at the centre of a unit circle (origin
strictly inside) is cast against it.  The claim says the nearest non-negative
boundary intersection — here the larger root, at distance 1 — is returned; the
code computes the smaller root `-1`, fails the `t < 0` check and returns
`none`. -/
theorem C3_counterexample :
    ray_cast_circle ⟨⟨0, 0⟩, ⟨1, 0⟩⟩ ⟨⟨0, 0⟩, 1⟩ = none
    ∧ on_circle ⟨⟨0, 0⟩, ⟨1, 0⟩⟩ ⟨⟨0, 0⟩, 1⟩ 1 ∧ (0 : ℝ) ≤ 1 := by
  refine ⟨?_, ?_, by norm_num⟩
  · simp only [ray_cast_circle, Vec2.dot, Vec2.sub_x, Vec2.sub_y]
    norm_num
  · rw [on_circle_iff_quad _ _ _ (by norm_num)]
    simp only [Vec2.dot, Vec2.sub_x, Vec2.sub_y]
    norm_num

/-- C3 (amended): for a ray with non-zero direction and a circle of
non-negative radius, `ray_cast(ray, circle)` computes the smaller quadratic
root and returns it only when non-negative: whenever it returns `some t`,
`t` is non-negative, lies on the circle boundary and is minimal among all
boundary intersections (hence is the nearest non-negative one); whenever no
non-negative intersection exists it returns `none`; but when the ray origin
lies strictly inside the circle it returns `none` as well (the smaller root is
negative and the larger root is not considered).  The concrete ray from the
origin toward `(1,0)` against the circle at `(5,0)` of radius 1 returns 4, and
the ray pointing away returns `none`. -/
theorem C3_ray_circle_amended :
    (∀ (r : ray) (c : circle), r.dir.dot r.dir ≠ 0 → 0 ≤ c.radius →
      (∀ t, ray_cast_circle r c = some t →
        0 ≤ t ∧ on_circle r c t ∧ ∀ u, on_circle r c u → t ≤ u)
      ∧ ((∀ u, 0 ≤ u → ¬ on_circle r c u) → ray_cast_circle r c = none)
      ∧ ((r.start - c.centre).dot (r.start - c.centre) < c.radius * c.radius →
          ray_cast_circle r c = none))
    ∧ ray_cast_circle ⟨⟨0, 0⟩, ⟨1, 0⟩⟩ ⟨⟨5, 0⟩, 1⟩ = some 4
    ∧ ray_cast_circle ⟨⟨0, 0⟩, ⟨-1, 0⟩⟩ ⟨⟨5, 0⟩, 1⟩ = none := by
  have main : ∀ (r : ray) (c : circle), r.dir.dot r.dir ≠ 0 → 0 ≤ c.radius →
      ∀ t, ray_cast_circle r c = some t →
        0 ≤ t ∧ on_circle r c t ∧ ∀ u, on_circle r c u → t ≤ u := by
    intro r c hA hr t ht
    set m := r.start - c.centre with hm
    set A := r.dir.dot r.dir with hAdef
    set B := m.dot r.dir with hB
    set C := m.dot m - c.radius * c.radius with hC
    have hApos : 0 < A := lt_of_le_of_ne (Vec2.dot_self_nonneg _) (Ne.symm hA)
    simp only [ray_cast_circle, ← hm, ← hAdef, ← hB, ← hC] at ht
    by_cases h1 : C > 0 ∧ B > 0
    · rw [if_pos h1] at ht
      exact Option.noConfusion ht
    rw [if_neg h1] at ht
    by_cases h2 : B * B - A * C < 0
    · rw [if_pos h2] at ht
      exact Option.noConfusion ht
    rw [if_neg h2] at ht
    by_cases h3 : (-B - Real.sqrt (B * B - A * C)) / A < 0
    · rw [if_pos h3] at ht
      exact Option.noConfusion ht
    rw [if_neg h3, Option.some_inj] at ht
    subst ht
    push_neg at h2 h3
    set s := Real.sqrt (B * B - A * C) with hs
    have hs0 : 0 ≤ s := hs ▸ Real.sqrt_nonneg _
    have hss : s * s = B * B - A * C := Real.mul_self_sqrt h2
    have hdisc : discrim A (2 * B) C = (2 * s) * (2 * s) := by
      rw [discrim]
      linear_combination (-4 : ℝ) * hss
    have hroot := fun u : ℝ => quadratic_eq_zero_iff (ne_of_gt hApos) hdisc u
    have hsmall : (-B - s) / A = (-(2 * B) - 2 * s) / (2 * A) := by
      rw [div_eq_div_iff (ne_of_gt hApos) (by positivity)]
      ring
    refine ⟨h3, ?_, ?_⟩
    · rw [on_circle_iff_quad _ _ _ hr, ← hm, ← hAdef, ← hB, ← hC, hroot]
      exact Or.inr hsmall
    · intro u hu
      rw [on_circle_iff_quad _ _ _ hr, ← hm, ← hAdef, ← hB, ← hC, hroot] at hu
      rcases hu with h | h
      · rw [h, hsmall]
        apply (div_le_div_iff_of_pos_right (by linarith)).2
        linarith
      · rw [h, hsmall]
  refine ⟨fun r c hA hr => ⟨main r c hA hr, ?_, ?_⟩, ?_, ?_⟩
  · intro hno
    cases hcast : ray_cast_circle r c with
    | none => rfl
    | some t =>
        have h := main r c hA hr t hcast
        exact absurd h.2.1 (hno t h.1)
  · intro hin
    have hApos : 0 < r.dir.dot r.dir :=
      lt_of_le_of_ne (Vec2.dot_self_nonneg _) (Ne.symm hA)
    set m := r.start - c.centre with hm
    set A := r.dir.dot r.dir with hAdef
    set B := m.dot r.dir with hB
    set C := m.dot m - c.radius * c.radius with hC
    have hCneg : C < 0 := by rw [hC]; linarith
    have h2 : 0 ≤ B * B - A * C := by nlinarith [mul_self_nonneg B]
    have hsq : |B| < Real.sqrt (B * B - A * C) := by
      rw [Real.lt_sqrt (abs_nonneg B), sq_abs]
      nlinarith [mul_self_nonneg B]
    have ht : (-B - Real.sqrt (B * B - A * C)) / A < 0 := by
      apply div_neg_of_neg_of_pos ?_ hApos
      linarith [neg_le_abs B]
    simp only [ray_cast_circle, ← hm, ← hAdef, ← hB, ← hC]
    rw [if_neg (by rintro ⟨hc1, _⟩; linarith), if_neg (not_lt.2 h2), if_pos ht]
  · simp only [ray_cast_circle, Vec2.dot, Vec2.sub_x, Vec2.sub_y]
    norm_num [Real.sqrt_one]
  · simp only [ray_cast_circle, Vec2.dot, Vec2.sub_x, Vec2.sub_y]
    norm_num

/-- Witness for C3's amended theorem: applied to the concrete ray/circle of
the claim's example, where the returned distance 4 is a non-negative boundary
intersection. -/
theorem C3_witness :
    (0 : ℝ) ≤ 4 ∧ on_circle ⟨⟨0, 0⟩, ⟨1, 0⟩⟩ ⟨⟨5, 0⟩, 1⟩ 4 := by
  have h := (C3_ray_circle_amended.1 ⟨⟨0, 0⟩, ⟨1, 0⟩⟩ ⟨⟨5, 0⟩, 1⟩
    (by simp [Vec2.dot]) (by norm_num)).1 4 C3_ray_circle_amended.2.1
  exact ⟨h.1, h.2.1⟩

/-- Evaluation rule for `ray_cast(ray, line)` with its dead guard eliminated, as an evaluation
rule: the function always reaches the divisions by `rxs`. -/
theorem ray_cast_line_eval (r : ray) (l : line) :
    ray_cast_line r l =
      (if ((l.start - r.start).cross (l.stop - l.start)) / (r.dir.cross (l.stop - l.start)) < 0
        then none
        else if ((l.start - r.start).cross r.dir) / (r.dir.cross (l.stop - l.start)) < 0
            ∨ ((l.start - r.start).cross r.dir) / (r.dir.cross (l.stop - l.start)) > 1
          then none
          else some (((l.start - r.start).cross (l.stop - l.start))
            / (r.dir.cross (l.stop - l.start)))) := by
  simp only [ray_cast_line, if_neg (not_lt.2 (abs_nonneg (r.dir.cross (l.stop - l.start))))]

/-- C4: ray–box cast.  The claim states that `ray_cast(ray, box)` is the
minimum ray–segment distance over the box's four boundary edges (top, right,
bottom, left).  The source instead casts against the two segments `{tr,bl}`
and `{br,tl}` — the box's diagonals — in place of the right and left edges.
For the ray from `(2, 1/4)` with direction `(-1, -1/2)` against the 2×2 box
centred at the origin, the code returns `3/2` (first hit on the `{tr,bl}`
diagonal, a point strictly inside the box), while the minimum over the four
boundary edges is `1` (the right edge). -/
theorem C4_ray_box_uses_diagonals :
    ray_cast_box ⟨⟨2, 1/4⟩, ⟨-1, -1/2⟩⟩ ⟨⟨0, 0⟩, 2, 2⟩ = some (3/2)
    ∧ ray_cast_box_edges ⟨⟨2, 1/4⟩, ⟨-1, -1/2⟩⟩ ⟨⟨0, 0⟩, 2, 2⟩ = some 1
    ∧ (3/2 : ℝ) ≠ 1 := by
  refine ⟨?_, ?_, by norm_num⟩
  · simp only [ray_cast_box, ray_cast_line_eval, Vec2.cross, Vec2.sub_x, Vec2.sub_y,
      Vec2.add_x, Vec2.add_y]
    norm_num [acc_min, min_def]
  · simp only [ray_cast_box_edges, ray_cast_line_eval, Vec2.cross, Vec2.sub_x, Vec2.sub_y,
      Vec2.add_x, Vec2.add_y]
    norm_num [acc_min, min_def]

/-- An attractor circle of radius 5 at the origin (a pocket). -/
def pocket : collider := ⟨⟨0, 0⟩, body_kind.attractor_body, shape_kind.circle_shape 5⟩

/-- A dynamic circle of radius 1 at `(3, 0)`, at rest, inside the pocket's
combined radius. -/
def pulled : collider := ⟨⟨3, 0⟩, body_kind.dynamic_body 0 1, shape_kind.circle_shape 1⟩

theorem collision_test_pocket_pulled :
    collision_test pocket pulled = Except.ok (some ⟨⟨1, 0⟩, 3⟩) := by
  have hd : ((⟨3, 0⟩ : Vec2) - ⟨0, 0⟩).length = 3 := by
    simp only [Vec2.length, Vec2.dot, Vec2.sub_x, Vec2.sub_y]
    rw [show ((3 : ℝ) - 0) * (3 - 0) + (0 - 0) * (0 - 0) = 9 by norm_num]
    exact sqrt_of_sq _ _ (by norm_num) (by norm_num)
  have hccc : collision_circle_circle ⟨0, 0⟩ ⟨3, 0⟩ 5 1 = some ⟨⟨1, 0⟩, 3⟩ := by
    simp only [collision_circle_circle, hd]
    rw [if_pos (by norm_num : (3 : ℝ) < 5 + 1), if_pos (by norm_num : (3 : ℝ) > 1e-6)]
    simp only [Option.some_inj, Vec2.sdiv, Vec2.sub_x, Vec2.sub_y]
    norm_num
  rw [show collision_test pocket pulled
      = Except.ok (collision_circle_circle ⟨0, 0⟩ ⟨3, 0⟩ 5 1) from rfl, hccc]

/-- C5 counterexample: the attractor at the origin and the resting dynamic
body at `(3, 0)` collide with normal `(1, 0)` (from the attractor toward the
body) and penetration 3.  Processing the pair with `dt = 1/1200` gives the
dynamic body velocity `(-297/100, 0)`: the received impulse points opposite
to the direction from the attractor toward the body (its dot product with
`pulled.pos − pocket.pos` is negative) — the body is pulled toward the
attractor, refuting the claimed impulse direction. -/
theorem C5_counterexample :
    pair_step (1/1200) 0 1 ([pocket, pulled], [])
      = Except.ok ([pocket,
          ⟨⟨3, 0⟩, body_kind.dynamic_body ⟨-297/100, 0⟩ 1, shape_kind.circle_shape 1⟩], [])
    ∧ Vec2.dot ⟨-297/100, 0⟩ (pulled.pos - pocket.pos) < 0 := by
  constructor
  · simp only [pair_step, List.getD_cons_zero, List.getD_cons_succ]
    rw [collision_test_pocket_pulled]
    simp only [collider.is_attractor, pocket, pulled]
    norm_num [attract_update, List.set, Vec2.ext_iff]
  · simp only [Vec2.dot, pulled, pocket, Vec2.sub_x, Vec2.sub_y]
    norm_num

/-- C5 (amended): during contact generation, an attractor–attractor colliding
pair has no effect; a colliding pair with exactly one attractor records no
contact and instead updates the dynamic body's velocity to
`(1 − 0.2·s·dt) · (v + s²·dt · d)` where `s = penetration × 20` and the
direction `d` is the *negated* contact normal for the first-is-attractor case
(resp. the normal itself in the symmetric case) — which for circle–circle
contacts of positive centre distance points from the dynamic body toward the
attractor, i.e. the body is pulled toward (not pushed away from) the
attractor and damped by the factor `(1 − 0.2·s·dt)`; a colliding pair with no
attractor appends a contact and leaves the bodies untouched. -/
theorem C5_attractor_pair_amended :
    ∀ (dt : ℝ) (cs : List collider) (contacts : List contact) (i j : ℕ)
      (col : collision_info),
      collision_test (cs.getD i default) (cs.getD j default) = Except.ok (some col) →
      ((cs.getD i default).is_attractor = true → (cs.getD j default).is_attractor = true →
        pair_step dt i j (cs, contacts) = Except.ok (cs, contacts))
      ∧ ((cs.getD i default).is_attractor = true → (cs.getD j default).is_attractor = false →
        pair_step dt i j (cs, contacts)
          = Except.ok (cs.set j (attract_update dt (col.penetration * 20) (-col.normal)
              (cs.getD j default)), contacts))
      ∧ ((cs.getD i default).is_attractor = false → (cs.getD j default).is_attractor = true →
        pair_step dt i j (cs, contacts)
          = Except.ok (cs.set i (attract_update dt (col.penetration * 20) col.normal
              (cs.getD i default)), contacts))
      ∧ ((cs.getD i default).is_attractor = false → (cs.getD j default).is_attractor = false →
        pair_step dt i j (cs, contacts)
          = Except.ok (cs, contacts ++ [⟨i, j, col.normal, col.penetration⟩]))
      ∧ (∀ (vel : Vec2) (mass : ℝ) (c : collider),
          c.body = body_kind.dynamic_body vel mass →
          attract_update dt (col.penetration * 20) (-col.normal) c
            = { c with body := (body_kind.dynamic_body
                ((1 - 0.2 * (col.penetration * 20) * dt)
                  • (vel + ((col.penetration * 20) * (col.penetration * 20) * dt)
                      • (-col.normal))) mass) })
      ∧ (∀ ra rb, (cs.getD i default).shape = shape_kind.circle_shape ra →
          (cs.getD j default).shape = shape_kind.circle_shape rb →
          ((cs.getD j default).pos - (cs.getD i default).pos).length > 1e-6 →
          -col.normal = ((cs.getD i default).pos - (cs.getD j default).pos).sdiv
            (((cs.getD j default).pos - (cs.getD i default).pos).length)) := by
  intro dt cs contacts i j col hcol
  refine ⟨fun hi hj => ?_, fun hi hj => ?_, fun hi hj => ?_, fun hi hj => ?_,
    fun vel mass c hc => ?_, fun ra rb hsi hsj hdist => ?_⟩
  · simp only [pair_step, hcol, hi, hj]
    simp
  · simp only [pair_step, hcol, hi, hj]
    simp
  · simp only [pair_step, hcol, hi, hj]
    simp
  · simp only [pair_step, hcol, hi, hj]
    simp
  · rcases c with ⟨p, b, s⟩
    simp only at hc
    subst hc
    simp only [attract_update]
  · have hdyn : (cs.getD i default).is_dynamic = true ∨ (cs.getD j default).is_dynamic = true := by
      by_contra hno
      push_neg at hno
      rcases hno with ⟨h1, h2⟩
      rw [collision_test, if_pos ⟨h1, h2⟩] at hcol
      exact Option.noConfusion (Except.ok.inj hcol)
    rw [collision_test_circles _ _ ra rb hsi hsj hdyn] at hcol
    have hspec := ccc_some_spec _ _ _ _ col (Except.ok.inj hcol)
    rw [hspec.2 hdist]
    simp only [Vec2.sdiv, Vec2.neg_x, Vec2.neg_y, Vec2.sub_x, Vec2.sub_y, Vec2.ext_iff]
    constructor <;> ring

/-- Witness for C5's amended theorem: the pocket/resting-body pair processed
with `dt = 1/1200` records no contact and applies `attract_update` along the
negated normal. -/
theorem C5_witness :
    pair_step (1/1200) 0 1 ([pocket, pulled], ([] : List contact))
      = Except.ok ([pocket, pulled].set 1
          (attract_update (1/1200) (3 * 20) (-(⟨1, 0⟩ : Vec2)) pulled), []) :=
  (C5_attractor_pair_amended (1/1200) [pocket, pulled] [] 0 1 ⟨⟨1, 0⟩, 3⟩
    collision_test_pocket_pulled).2.1 rfl rfl

/-- C6: solver bias vector.  For every contact `i`, the bias built by
`solve_contacts` is `-(1 + 0.8)·rel_vel + 0.2·max(penetration, 0)` when the
relative normal velocity `rel_vel = dot(vel_B − vel_A, normal)` is below
`-1e-6` (bodies approaching), and `0.2·max(penetration, 0)` otherwise; the
restitution coefficient is 0.8 for every contact, since the stepping loop
invokes `solve_contacts` with its defaulted restitution of 0.8. -/
theorem C6_solver_bias_vector :
    (∀ (colliders : List collider) (contacts : List contact) (i : ℕ),
      i < contacts.length →
      bias_vec colliders contacts 0.8 i
        = if ((velocity (colliders.getD (contacts.getD i default).b default)
              - velocity (colliders.getD (contacts.getD i default).a default)).dot
                (contacts.getD i default).normal) < -1e-6
          then -(1 + 0.8) * ((velocity (colliders.getD (contacts.getD i default).b default)
              - velocity (colliders.getD (contacts.getD i default).a default)).dot
                (contacts.getD i default).normal)
            + 0.2 * max (contacts.getD i default).penetration 0
          else 0.2 * max (contacts.getD i default).penetration 0)
    ∧ (∀ (dt : ℝ) (colliders : List collider),
        substep dt colliders
          = (process_pairs dt (all_pairs (integrate dt colliders).length)
              (integrate dt colliders, [])).map fun s =>
                damp dt (fix_positions (solve_contacts s.1 s.2 0.8) s.2)) := by
  constructor
  · intro colliders contacts i hi
    simp only [bias_vec]
    by_cases h : ((velocity (colliders.getD (contacts.getD i default).b default)
        - velocity (colliders.getD (contacts.getD i default).a default)).dot
          (contacts.getD i default).normal) < -1e-6
    · rw [if_pos h, if_pos h]
    · rw [if_neg h, if_neg h, zero_add]
  · intro dt colliders
    rfl

/-- A contact between indices 0 and 1 with unit normal and penetration 1. -/
def contact01 : contact := ⟨0, 1, ⟨1, 0⟩, 1⟩

/-- Witness for C6 at a concrete collider/contact configuration: both bodies
are at rest, so the relative velocity branch is not taken and the bias is the
pure Baumgarte term. -/
theorem C6_witness :
    bias_vec [ballA, ballB] [contact01] 0.8 0 = 0.2 * max (1 : ℝ) 0 := by
  have h := C6_solver_bias_vector.1 [ballA, ballB] [contact01] 0 (by norm_num)
  rw [h]
  rw [if_neg]
  · simp [contact01]
  · simp only [contact01, List.getD_cons_zero, List.getD_cons_succ,
      velocity, ballA, ballB]
    simp [Vec2.dot]
    norm_num

/-! ## Frame preservation of non-dynamic bodies (C7) -/

theorem getD_set_ne {α} [Inhabited α] (cs : List α) (i k : ℕ) (v : α) (h : i ≠ k) :
    (cs.set i v).getD k default = cs.getD k default := by
  simp [List.getD_eq_getElem?_getD, List.getElem?_set_ne h]

theorem getD_set_self {α} [Inhabited α] (cs : List α) (i : ℕ) (v : α) (h : i < cs.length) :
    (cs.set i v).getD i default = v := by
  simp [List.getD_eq_getElem?_getD, List.getElem?_set_self h]

/-- A non-dynamic collider's body is static or attractor. -/
theorem nondyn_cases (c : collider) (h : c.is_dynamic = false) :
    c.body = body_kind.static_body ∨ c.body = body_kind.attractor_body := by
  rcases c with ⟨p, b, s⟩
  cases b with
  | static_body => exact Or.inl rfl
  | attractor_body => exact Or.inr rfl
  | dynamic_body v m => simp [collider.is_dynamic] at h

theorem attract_update_nondyn (dt strength : ℝ) (d : Vec2) (c : collider)
    (h : c.is_dynamic = false) : attract_update dt strength d c = c := by
  rcases nondyn_cases c h with hb | hb <;> rcases c with ⟨p, b, s⟩ <;>
    simp only at hb <;> subst hb <;> rfl

theorem apply_impulse_nondyn (c : collider) (imp : Vec2) (h : c.is_dynamic = false) :
    apply_impulse c imp = c := by
  rcases nondyn_cases c h with hb | hb <;> rcases c with ⟨p, b, s⟩ <;>
    simp only at hb <;> subst hb <;> rfl

/-- Setting index `i` to a function of the current entry leaves every
non-dynamic-preserved entry unchanged, provided the function fixes the entry
when it is the one observed. -/
theorem set_apply_preserve (cs : List collider) (i k : ℕ) (v : collider)
    (hv : v = cs.getD i default ∨ i ≠ k)
    (hk : (cs.getD k default).is_dynamic = false) :
    (cs.set i v).getD k default = cs.getD k default := by
  by_cases hik : i = k
  · subst hik
    rcases hv with hv | hv
    · subst hv
      by_cases hlen : i < cs.length
      · rw [getD_set_self _ _ _ hlen]
      · rw [List.set_eq_of_length_le (le_of_not_lt hlen)]
    · exact absurd rfl hv
  · exact getD_set_ne _ _ _ _ hik

theorem map_getD_preserve (f : collider → collider)
    (hf : ∀ c, c.is_dynamic = false → f c = c) :
    ∀ (cs : List collider) (k : ℕ), (cs.getD k default).is_dynamic = false →
      (cs.map f).getD k default = cs.getD k default := by
  intro cs
  induction cs with
  | nil => intro k _; rfl
  | cons c rest ih =>
      intro k h
      cases k with
      | zero =>
          simp only [List.getD_cons_zero] at h ⊢
          simpa using hf c h
      | succ k =>
          simp only [List.getD_cons_succ] at h ⊢
          simpa using ih k h

theorem integrate_fix (dt : ℝ) (c : collider) (h : c.is_dynamic = false) :
    (match c.body with
      | body_kind.dynamic_body vel _ => { c with pos := c.pos + dt • vel }
      | _ => c) = c := by
  rcases nondyn_cases c h with hb | hb <;> rw [hb]

theorem integrate_getD (dt : ℝ) (cs : List collider) (k : ℕ)
    (h : (cs.getD k default).is_dynamic = false) :
    (integrate dt cs).getD k default = cs.getD k default :=
  map_getD_preserve _ (fun c hc => integrate_fix dt c hc) cs k h

theorem damp_fix (dt : ℝ) (c : collider) (h : c.is_dynamic = false) :
    (match c.body with
      | body_kind.dynamic_body vel mass =>
          { c with body := (body_kind.dynamic_body
              (if (Real.exp (-1.1 * dt) • vel).length < 0.01 then 0
                else Real.exp (-1.1 * dt) • vel) mass) }
      | _ => c) = c := by
  rcases nondyn_cases c h with hb | hb <;> rw [hb]

theorem damp_getD (dt : ℝ) (cs : List collider) (k : ℕ)
    (h : (cs.getD k default).is_dynamic = false) :
    (damp dt cs).getD k default = cs.getD k default :=
  map_getD_preserve _ (fun c hc => damp_fix dt c hc) cs k h

theorem pair_step_ok_getD (dt : ℝ) (i j : ℕ) (s s' : List collider × List contact)
    (h : pair_step dt i j s = Except.ok s') (k : ℕ)
    (hk : (s.1.getD k default).is_dynamic = false) :
    s'.1.getD k default = s.1.getD k default ∧ s'.1.length = s.1.length := by
  rcases s with ⟨cs, contacts⟩
  simp only at hk ⊢
  rcases hres : collision_test (cs.getD i default) (cs.getD j default) with msg | o
  · simp only [pair_step, hres] at h
    exact Except.noConfusion h
  · rcases o with _ | col
    · simp only [pair_step, hres] at h
      rcases Except.ok.inj h with rfl
      exact ⟨rfl, rfl⟩
    · simp only [pair_step, hres] at h
      by_cases h1 : (cs.getD i default).is_attractor ∧ (cs.getD j default).is_attractor
      · rw [if_pos h1] at h
        rcases Except.ok.inj h with rfl
        exact ⟨rfl, rfl⟩
      rw [if_neg h1] at h
      by_cases h2 : (cs.getD i default).is_attractor = true
      · rw [if_pos h2] at h
        rcases Except.ok.inj h with rfl
        refine ⟨set_apply_preserve _ _ _ _ ?_ hk, by simp⟩
        by_cases hjk : j = k
        · subst hjk
          exact Or.inl (attract_update_nondyn _ _ _ _ hk)
        · exact Or.inr hjk
      rw [if_neg h2] at h
      by_cases h3 : (cs.getD j default).is_attractor = true
      · rw [if_pos h3] at h
        rcases Except.ok.inj h with rfl
        refine ⟨set_apply_preserve _ _ _ _ ?_ hk, by simp⟩
        by_cases hik : i = k
        · subst hik
          exact Or.inl (attract_update_nondyn _ _ _ _ hk)
        · exact Or.inr hik
      · rw [if_neg h3] at h
        rcases Except.ok.inj h with rfl
        exact ⟨rfl, rfl⟩

theorem process_pairs_ok_getD (dt : ℝ) (ps : List (ℕ × ℕ)) :
    ∀ (s s' : List collider × List contact), process_pairs dt ps s = Except.ok s' →
      ∀ k, (s.1.getD k default).is_dynamic = false →
        s'.1.getD k default = s.1.getD k default ∧ s'.1.length = s.1.length := by
  induction ps with
  | nil =>
      intro s s' h k hk
      rcases Except.ok.inj h with rfl
      exact ⟨rfl, rfl⟩
  | cons ij rest ih =>
      intro s s' h k hk
      rcases hstep : pair_step dt ij.1 ij.2 s with msg | s1
      · simp only [process_pairs, hstep, Except.bind] at h
        exact Except.noConfusion h
      · simp only [process_pairs, hstep, Except.bind] at h
        have h1 := pair_step_ok_getD dt ij.1 ij.2 s s1 hstep k hk
        have h2 := ih s1 s' h k (by rw [h1.1]; exact hk)
        exact ⟨h2.1.trans h1.1, h2.2.trans h1.2⟩

theorem foldl_preserve {β : Type} (g : List collider → β → List collider)
    (hg : ∀ cs b k, (cs.getD k default).is_dynamic = false →
      (g cs b).getD k default = cs.getD k default ∧ (g cs b).length = cs.length) :
    ∀ (l : List β) (cs : List collider) (k : ℕ),
      (cs.getD k default).is_dynamic = false →
      (l.foldl g cs).getD k default = cs.getD k default
        ∧ (l.foldl g cs).length = cs.length := by
  intro l
  induction l with
  | nil => exact fun cs k _ => ⟨rfl, rfl⟩
  | cons b rest ih =>
      intro cs k h
      have h1 := hg cs b k h
      have h2 := ih (g cs b) k (by rw [h1.1]; exact h)
      exact ⟨h2.1.trans h1.1, h2.2.trans h1.2⟩

theorem impulse_one_getD (contacts : List contact) (j : ℕ → ℝ)
    (cs : List collider) (i k : ℕ)
    (hk : (cs.getD k default).is_dynamic = false) :
    (impulse_one contacts j cs i).getD k default = cs.getD k default
      ∧ (impulse_one contacts j cs i).length = cs.length := by
  simp only [impulse_one]
  set c := contacts.getD i default
  set imp := j i • c.normal
  have hstep1 : (cs.set c.a (apply_impulse (cs.getD c.a default) (-imp))).getD k default
      = cs.getD k default := by
    refine set_apply_preserve _ _ _ _ ?_ hk
    by_cases hak : c.a = k
    · subst hak
      exact Or.inl (apply_impulse_nondyn _ _ hk)
    · exact Or.inr hak
  set cs2 := cs.set c.a (apply_impulse (cs.getD c.a default) (-imp)) with hcs2
  have h2 : (cs2.getD k default).is_dynamic = false := by rw [hstep1]; exact hk
  have hstep2 : (cs2.set c.b (apply_impulse (cs2.getD c.b default) imp)).getD k default
      = cs2.getD k default := by
    refine set_apply_preserve _ _ _ _ ?_ h2
    by_cases hbk : c.b = k
    · subst hbk
      exact Or.inl (apply_impulse_nondyn _ _ h2)
    · exact Or.inr hbk
  exact ⟨hstep2.trans hstep1, by simp [hcs2]⟩

theorem apply_impulses_getD (cs : List collider) (contacts : List contact)
    (j : ℕ → ℝ) (k : ℕ) (hk : (cs.getD k default).is_dynamic = false) :
    (apply_impulses cs contacts j).getD k default = cs.getD k default := by
  simp only [apply_impulses]
  exact (foldl_preserve _ (fun cs1 i k1 h1 => impulse_one_getD contacts j cs1 i k1 h1)
    (List.range contacts.length) cs k hk).1

theorem solve_contacts_getD (cs : List collider) (contacts : List contact)
    (restitution : ℝ) (k : ℕ) (hk : (cs.getD k default).is_dynamic = false) :
    (solve_contacts cs contacts restitution).getD k default = cs.getD k default := by
  simp only [solve_contacts]
  by_cases hN : contacts.length = 0
  · rw [if_pos hN]
  · rw [if_neg hN]
    exact apply_impulses_getD _ _ _ k hk

theorem fix_one_getD (cs : List collider) (c : contact) (k : ℕ)
    (hk : (cs.getD k default).is_dynamic = false) :
    (fix_one cs c).getD k default = cs.getD k default
      ∧ (fix_one cs c).length = cs.length := by
  by_cases hp : c.penetration ≤ 0
  · simp [fix_one, if_pos hp]
  · simp only [fix_one, if_neg hp]
    set inv_a := inv_mass (cs.getD c.a default) with hia
    set inv_b := inv_mass (cs.getD c.b default) with hib
    set correction := ((c.penetration * 0.4) • c.normal).sdiv (inv_a + inv_b)
    set ca := cs.getD c.a default with hca
    have hstep1 : (cs.set c.a { ca with pos := ca.pos - inv_a • correction }).getD k default
        = cs.getD k default := by
      refine set_apply_preserve _ _ _ _ ?_ hk
      by_cases hak : c.a = k
      · subst hak
        refine Or.inl ?_
        have hz : inv_a = 0 := by
          rw [hia]
          rcases nondyn_cases _ hk with hb | hb <;> rw [inv_mass, hb]
        rw [hz, Vec2.zero_smul_vec, Vec2.sub_zero_vec, hca]
      · exact Or.inr hak
    set cs2 := cs.set c.a { ca with pos := ca.pos - inv_a • correction } with hcs2
    have h2 : (cs2.getD k default).is_dynamic = false := by rw [hstep1]; exact hk
    set cb := cs2.getD c.b default with hcb
    have hstep2 : (cs2.set c.b { cb with pos := cb.pos + inv_b • correction }).getD k default
        = cs2.getD k default := by
      refine set_apply_preserve _ _ _ _ ?_ h2
      by_cases hbk : c.b = k
      · subst hbk
        refine Or.inl ?_
        have hz : inv_b = 0 := by
          rw [hib]
          rcases nondyn_cases _ hk with hb | hb <;> rw [inv_mass, hb]
        rw [hz, Vec2.zero_smul_vec, Vec2.add_zero_vec, hcb]
      · exact Or.inr hbk
    exact ⟨hstep2.trans hstep1, by simp [hcs2]⟩

theorem fix_positions_getD (cs : List collider) (contacts : List contact)
    (k : ℕ) (hk : (cs.getD k default).is_dynamic = false) :
    (fix_positions cs contacts).getD k default = cs.getD k default := by
  simp only [fix_positions]
  exact (foldl_preserve _ (fun cs1 c k1 h1 => fix_one_getD cs1 c k1 h1)
    contacts cs k hk).1

theorem substep_ok_getD (dt : ℝ) (cs cs' : List collider)
    (h : substep dt cs = Except.ok cs') (k : ℕ)
    (hk : (cs.getD k default).is_dynamic = false) :
    cs'.getD k default = cs.getD k default := by
  simp only [substep] at h
  rcases hproc : process_pairs dt (all_pairs (integrate dt cs).length)
      (integrate dt cs, []) with msg | s2
  · rw [hproc] at h
    simp only [Except.map] at h
    exact Except.noConfusion h
  · rw [hproc] at h
    simp only [Except.map] at h
    rcases Except.ok.inj h with rfl
    have h1 := integrate_getD dt cs k hk
    have hk1 : ((integrate dt cs).getD k default).is_dynamic = false := by
      rw [h1]; exact hk
    have h2 := process_pairs_ok_getD dt _ _ _ hproc k hk1
    have hk2 : (s2.1.getD k default).is_dynamic = false := by
      rw [h2.1]; exact hk1
    have h3 := solve_contacts_getD s2.1 s2.2 0.8 k hk2
    have hk3 : ((solve_contacts s2.1 s2.2 0.8).getD k default).is_dynamic = false := by
      rw [h3]; exact hk2
    have h4 := fix_positions_getD (solve_contacts s2.1 s2.2 0.8) s2.2 k hk3
    have hk4 : ((fix_positions (solve_contacts s2.1 s2.2 0.8) s2.2).getD k default).is_dynamic
        = false := by rw [h4]; exact hk3
    have h5 := damp_getD dt (fix_positions (solve_contacts s2.1 s2.2 0.8) s2.2) k hk4
    rw [h5, h4, h3, h2.1, h1]

theorem run_substeps_ok_getD (dt : ℝ) (n : ℕ) :
    ∀ (cs cs' : List collider), run_substeps dt n cs = Except.ok cs' →
      ∀ k, (cs.getD k default).is_dynamic = false →
        cs'.getD k default = cs.getD k default := by
  induction n with
  | zero =>
      intro cs cs' h k hk
      rcases Except.ok.inj h with rfl
      rfl
  | succ n ih =>
      intro cs cs' h k hk
      rcases hsub : substep dt cs with msg | cs1
      · simp only [run_substeps, hsub, Except.bind] at h
        exact Except.noConfusion h
      · simp only [run_substeps, hsub, Except.bind] at h
        have h1 := substep_ok_getD dt cs cs1 hsub k hk
        have hk1 : (cs1.getD k default).is_dynamic = false := by rw [h1]; exact hk
        exact (ih cs1 cs' h k hk1).trans h1

/-- C7: immovability frame property.  For every call to `step`, under the
precondition that every dynamic body has positive mass, every collider whose
body is not dynamic (static bodies and attractors) is returned completely
unchanged — same position, same body (hence the same zero velocity): position
integration, attraction, impulse application, positional correction and
damping all leave non-dynamic bodies untouched. -/
theorem C7_step_preserves_nondynamic (frame_dt : ℝ) (cs cs' : List collider)
    (hmass : ∀ c ∈ cs, ∀ vel m, c.body = body_kind.dynamic_body vel m → 0 < m)
    (hstep : step frame_dt cs = Except.ok cs') :
    ∀ k, (cs.getD k default).is_dynamic = false →
      cs'.getD k default = cs.getD k default := by
  intro k hk
  exact run_substeps_ok_getD (frame_dt / 20) 20 cs cs' hstep k hk

theorem substep_statbox (dt : ℝ) : substep dt [statbox] = Except.ok [statbox] := rfl

theorem run_substeps_statbox (dt : ℝ) (n : ℕ) :
    run_substeps dt n [statbox] = Except.ok [statbox] := by
  induction n with
  | zero => rfl
  | succ n ih =>
      show (substep dt [statbox]).bind (run_substeps dt n) = Except.ok [statbox]
      rw [substep_statbox]
      simpa [Except.bind] using ih

/-! ## Damping of a non-participating dynamic body (C8)

The claim quantifies over every dynamic body, in an arbitrary body set, that
participates in no contacts and no attractor interactions during a step.
Participation is decided by `collision_test` on the post-integration state of
each substep (that is where the source's pair loop runs), so the
non-participation hypothesis is formalised as a predicate over the trace of
substep states (`free_run`, and `free_frames` for successive `step` calls). -/

@[simp] theorem Vec2.one_smul_vec (v : Vec2) : (1 : ℝ) • v = v := by
  simp [Vec2.ext_iff]

theorem length_smul_nonneg (c : ℝ) (hc : 0 ≤ c) (v : Vec2) :
    (c • v).length = c * v.length := by
  rw [Vec2.length_smul, abs_of_nonneg hc]

/-- A dynamic body for concrete instances. -/
def mk_ball (p v : Vec2) (m : ℝ) (sh : shape_kind) : collider :=
  ⟨p, body_kind.dynamic_body v m, sh⟩

/-- One substep of a singleton world: integrate the position, damp the
velocity by `exp(-1.1·dt)`, zero it below the 0.01 floor. -/
theorem substep_singleton (dt : ℝ) (p v : Vec2) (m : ℝ) (sh : shape_kind) :
    substep dt [mk_ball p v m sh]
      = Except.ok [mk_ball (p + dt • v)
          (if (Real.exp (-1.1 * dt) • v).length < 0.01 then 0
            else Real.exp (-1.1 * dt) • v) m sh] := rfl

/-- Rewrites `exp(-1.1·(k·x))` as `exp(-1.1·x)^k`. -/
theorem exp_pow_aux (x : ℝ) (k : ℕ) :
    Real.exp (-1.1 * (k * x)) = Real.exp (-1.1 * x) ^ k := by
  rw [← Real.exp_nat_mul]
  congr 1
  ring

/-- The damping map applied to one dynamic body's velocity in the damping
phase (simulation.cpp lines 349–359). -/
def damp_vel (dt : ℝ) (v : Vec2) : Vec2 :=
  let vel1 := Real.exp (-1.1 * dt) • v
  if vel1.length < 0.01 then 0 else vel1

theorem damp_vel_zero (dt : ℝ) : damp_vel dt 0 = 0 := by
  simp only [damp_vel, Vec2.smul_zero_vec, Vec2.length_zero]
  rw [if_pos (by norm_num)]

/-- Index-`k` read of a mapped list, in bounds. -/
theorem map_getD_lt (f : collider → collider) :
    ∀ (cs : List collider) (k : ℕ), k < cs.length →
      (cs.map f).getD k default = f (cs.getD k default) := by
  intro cs
  induction cs with
  | nil => intro k h; exact absurd h (by simp)
  | cons c rest ih =>
      intro k h
      cases k with
      | zero => simp
      | succ k => simpa using ih k (by simpa using h)

theorem getD_oob {α : Type} [Inhabited α] (l : List α) :
    l.getD l.length default = default := by
  rw [List.getD_eq_getElem?_getD, List.getElem?_eq_none (le_refl _)]
  rfl

theorem getD_mem_of_lt {α : Type} [Inhabited α] (l : List α) (i : ℕ) (h : i < l.length) :
    l.getD i default ∈ l := by
  rw [List.getD_eq_getElem?_getD, List.getElem?_eq_getElem h]
  exact List.getElem_mem h

/-- An index holding a dynamic body is in bounds (the out-of-range default is
static). -/
theorem k_lt_of_dyn (cs : List collider) (k : ℕ) (p v : Vec2) (m : ℝ) (sh : shape_kind)
    (hk : cs.getD k default = ⟨p, body_kind.dynamic_body v m, sh⟩) : k < cs.length := by
  by_contra hge
  push_neg at hge
  rw [List.getD_eq_getElem?_getD, List.getElem?_eq_none hge] at hk
  exact body_kind.noConfusion (congrArg collider.body hk)

/-! Length preservation of every phase (no hypotheses). -/

theorem foldl_length {β : Type} (g : List collider → β → List collider)
    (hg : ∀ cs b, (g cs b).length = cs.length) :
    ∀ (l : List β) (cs : List collider), (l.foldl g cs).length = cs.length := by
  intro l
  induction l with
  | nil => intro cs; rfl
  | cons b rest ih =>
      intro cs
      rw [List.foldl_cons, ih (g cs b), hg cs b]

theorem impulse_one_length (contacts : List contact) (j : ℕ → ℝ)
    (cs : List collider) (i : ℕ) :
    (impulse_one contacts j cs i).length = cs.length := by
  simp [impulse_one]

theorem fix_one_length (cs : List collider) (c : contact) :
    (fix_one cs c).length = cs.length := by
  by_cases hp : c.penetration ≤ 0
  · simp [fix_one, if_pos hp]
  · simp [fix_one, if_neg hp]

theorem apply_impulses_length (cs : List collider) (contacts : List contact) (j : ℕ → ℝ) :
    (apply_impulses cs contacts j).length = cs.length :=
  foldl_length _ (impulse_one_length contacts j) (List.range contacts.length) cs

theorem solve_contacts_length (cs : List collider) (contacts : List contact) (r : ℝ) :
    (solve_contacts cs contacts r).length = cs.length := by
  simp only [solve_contacts]
  by_cases hN : contacts.length = 0
  · rw [if_pos hN]
  · rw [if_neg hN]
    exact apply_impulses_length _ _ _

theorem fix_positions_length (cs : List collider) (contacts : List contact) :
    (fix_positions cs contacts).length = cs.length :=
  foldl_length _ (fun cs c => fix_one_length cs c) contacts cs

theorem integrate_length (dt : ℝ) (cs : List collider) :
    (integrate dt cs).length = cs.length := by
  simp [integrate]

theorem damp_length (dt : ℝ) (cs : List collider) :
    (damp dt cs).length = cs.length := by
  simp [damp]

theorem pair_step_ok_length (dt : ℝ) (i j : ℕ) (s s' : List collider × List contact)
    (h : pair_step dt i j s = Except.ok s') : s'.1.length = s.1.length :=
  (pair_step_ok_getD dt i j s s' h s.1.length (by rw [getD_oob]; rfl)).2

theorem process_pairs_ok_length (dt : ℝ) (ps : List (ℕ × ℕ))
    (s s' : List collider × List contact) (h : process_pairs dt ps s = Except.ok s') :
    s'.1.length = s.1.length :=
  (process_pairs_ok_getD dt ps s s' h s.1.length (by rw [getD_oob]; rfl)).2

theorem substep_ok_length (dt : ℝ) (cs cs' : List collider)
    (h : substep dt cs = Except.ok cs') : cs'.length = cs.length := by
  simp only [substep] at h
  rcases hproc : process_pairs dt (all_pairs (integrate dt cs).length)
      (integrate dt cs, []) with msg | s2
  · rw [hproc] at h
    simp only [Except.map] at h
    exact Except.noConfusion h
  · rw [hproc] at h
    simp only [Except.map] at h
    rcases Except.ok.inj h with rfl
    rw [damp_length, fix_positions_length, solve_contacts_length]
    have h2 := process_pairs_ok_length dt _ _ _ hproc
    simp only at h2
    rw [h2, integrate_length]

theorem run_substeps_ok_length (dt : ℝ) (n : ℕ) :
    ∀ (cs cs' : List collider), run_substeps dt n cs = Except.ok cs' →
      cs'.length = cs.length := by
  induction n with
  | zero =>
      intro cs cs' h
      rcases Except.ok.inj h with rfl
      rfl
  | succ n ih =>
      intro cs cs' h
      rcases hsub : substep dt cs with msg | cs1
      · simp only [run_substeps, hsub, Except.bind] at h
        exact Except.noConfusion h
      · simp only [run_substeps, hsub, Except.bind] at h
        rw [ih cs1 cs' h, substep_ok_length dt cs cs1 hsub]

/-! The pair loop only mutates velocities (through `attract_update`), and
`collision_test` never reads a velocity, so test results are invariant over
the loop. -/

theorem collision_test_attract_left (dt s : ℝ) (dir : Vec2) (c d : collider) :
    collision_test (attract_update dt s dir c) d = collision_test c d := by
  rcases c with ⟨p, b, sh⟩
  cases b with
  | static_body => rfl
  | attractor_body => rfl
  | dynamic_body v m => rfl

theorem collision_test_attract_right (dt s : ℝ) (dir : Vec2) (c d : collider) :
    collision_test c (attract_update dt s dir d) = collision_test c d := by
  rcases d with ⟨p, b, sh⟩
  cases b with
  | static_body => rfl
  | attractor_body => rfl
  | dynamic_body v m => rfl

/-- Setting any index to the attract-update of its current entry changes no
`collision_test` result between any two indices. -/
theorem test_set_attract (cs : List collider) (idx : ℕ) (dt st : ℝ) (dir : Vec2)
    (a b : ℕ) :
    collision_test
        ((cs.set idx (attract_update dt st dir (cs.getD idx default))).getD a default)
        ((cs.set idx (attract_update dt st dir (cs.getD idx default))).getD b default)
      = collision_test (cs.getD a default) (cs.getD b default) := by
  have hA : ∀ x : ℕ,
      (cs.set idx (attract_update dt st dir (cs.getD idx default))).getD x default
          = cs.getD x default
      ∨ (cs.set idx (attract_update dt st dir (cs.getD idx default))).getD x default
          = attract_update dt st dir (cs.getD x default) := by
    intro x
    by_cases hx : idx = x
    · subst hx
      by_cases hlen : idx < cs.length
      · right
        rw [getD_set_self _ _ _ hlen]
      · left
        rw [List.set_eq_of_length_le (le_of_not_lt hlen)]
    · left
      exact getD_set_ne _ _ _ _ hx
  rcases hA a with ha | ha <;> rcases hA b with hb | hb <;> rw [ha, hb]
  · rw [collision_test_attract_right]
  · rw [collision_test_attract_left]
  · rw [collision_test_attract_left, collision_test_attract_right]

/-- Every pair produced by the nested loops satisfies `i < j < n`. -/
theorem all_pairs_mem (n : ℕ) : ∀ ij ∈ all_pairs n, ij.1 < ij.2 ∧ ij.2 < n := by
  intro ij hij
  simp only [all_pairs, List.mem_flatMap, List.mem_map, List.mem_filter,
    List.mem_range, decide_eq_true_eq] at hij
  rcases hij with ⟨i, _, j, ⟨hj, hlt⟩, rfl⟩
  exact ⟨hlt, hj⟩

/-- Invariant of the contact-generation loop when index `k` collides with
nothing in the post-integration state `cs1`: the loop preserves all
`collision_test` results, never touches entry `k`, and records only contacts
avoiding `k`. -/
theorem process_pairs_free (dt : ℝ) (k : ℕ) (cs1 : List collider)
    (hfree : ∀ j, j < cs1.length → j ≠ k →
      collision_test (cs1.getD (min k j) default) (cs1.getD (max k j) default)
        = Except.ok none) :
    ∀ (ps : List (ℕ × ℕ)), (∀ ij ∈ ps, ij.1 < ij.2 ∧ ij.2 < cs1.length) →
    ∀ (s s' : List collider × List contact),
      s.1.length = cs1.length →
      (∀ a b, collision_test (s.1.getD a default) (s.1.getD b default)
        = collision_test (cs1.getD a default) (cs1.getD b default)) →
      s.1.getD k default = cs1.getD k default →
      (∀ c ∈ s.2, c.a ≠ k ∧ c.b ≠ k) →
      process_pairs dt ps s = Except.ok s' →
      (s'.1.getD k default = cs1.getD k default
        ∧ ∀ c ∈ s'.2, c.a ≠ k ∧ c.b ≠ k) := by
  intro ps
  induction ps with
  | nil =>
      intro _ s s' _ _ hk hc h
      rcases Except.ok.inj h with rfl
      exact ⟨hk, hc⟩
  | cons ij rest ih =>
      intro hmem s s' hlen hinv hk hc h
      obtain ⟨hij, hjn⟩ := hmem ij (List.mem_cons_self ij rest)
      have hmem' : ∀ p ∈ rest, p.1 < p.2 ∧ p.2 < cs1.length :=
        fun p hp => hmem p (List.mem_cons_of_mem ij hp)
      rcases s with ⟨cs, contacts⟩
      simp only at hlen hinv hk hc
      rcases hres : collision_test (cs.getD ij.1 default) (cs.getD ij.2 default)
        with msg | o
      · simp only [process_pairs, pair_step, hres, Except.bind] at h
        exact Except.noConfusion h
      · rcases o with _ | col
        · -- no collision for this pair: state unchanged
          simp only [process_pairs, pair_step, hres, Except.bind] at h
          exact ih hmem' (cs, contacts) s' hlen hinv hk hc h
        · -- a collision: this pair cannot involve k
          have hik : ij.1 ≠ k ∧ ij.2 ≠ k := by
            constructor
            · rintro rfl
              have hnone := hfree ij.2 hjn (Nat.ne_of_gt hij)
              rw [Nat.min_eq_left (le_of_lt hij), Nat.max_eq_right (le_of_lt hij)] at hnone
              rw [hinv ij.1 ij.2, hnone] at hres
              exact Option.noConfusion (Except.ok.inj hres)
            · rintro rfl
              have h1n : ij.1 < cs1.length := lt_trans hij hjn
              have hnone := hfree ij.1 h1n (Nat.ne_of_lt hij)
              rw [Nat.min_eq_right (le_of_lt hij), Nat.max_eq_left (le_of_lt hij)] at hnone
              rw [hinv ij.1 ij.2, hnone] at hres
              exact Option.noConfusion (Except.ok.inj hres)
          simp only [process_pairs, pair_step, hres, Except.bind] at h
          by_cases h1 : (cs.getD ij.1 default).is_attractor
              ∧ (cs.getD ij.2 default).is_attractor
          · rw [if_pos h1] at h
            exact ih hmem' (cs, contacts) s' hlen hinv hk hc h
          rw [if_neg h1] at h
          by_cases h2 : (cs.getD ij.1 default).is_attractor = true
          · rw [if_pos h2] at h
            refine ih hmem' _ s' ?_ ?_ ?_ hc h
            · simp [hlen]
            · intro a b
              rw [test_set_attract]
              exact hinv a b
            · rw [getD_set_ne _ _ _ _ hik.2]
              exact hk
          rw [if_neg h2] at h
          by_cases h3 : (cs.getD ij.2 default).is_attractor = true
          · rw [if_pos h3] at h
            refine ih hmem' _ s' ?_ ?_ ?_ hc h
            · simp [hlen]
            · intro a b
              rw [test_set_attract]
              exact hinv a b
            · rw [getD_set_ne _ _ _ _ hik.1]
              exact hk
          · rw [if_neg h3] at h
            refine ih hmem' _ s' hlen hinv hk ?_ h
            intro c hcmem
            rcases List.mem_append.1 hcmem with hcl | hcr
            · exact hc c hcl
            · rcases List.mem_singleton.1 hcr with rfl
              exact hik

/-- Impulse application over contacts that all avoid `k` leaves entry `k`
unchanged. -/
theorem apply_impulses_getD_avoid (cs : List collider) (contacts : List contact)
    (j : ℕ → ℝ) (k : ℕ) (h : ∀ c ∈ contacts, c.a ≠ k ∧ c.b ≠ k) :
    (apply_impulses cs contacts j).getD k default = cs.getD k default := by
  simp only [apply_impulses]
  have main : ∀ (l : List ℕ), (∀ i ∈ l, i < contacts.length) → ∀ cs0 : List collider,
      ((l.foldl (impulse_one contacts j) cs0).getD k default = cs0.getD k default) := by
    intro l
    induction l with
    | nil => intro _ cs0; rfl
    | cons i rest ih =>
        intro hmem cs0
        rw [List.foldl_cons,
          ih (fun x hx => hmem x (List.mem_cons_of_mem i hx)) (impulse_one contacts j cs0 i)]
        have hcmem := getD_mem_of_lt contacts i (hmem i (List.mem_cons_self i rest))
        obtain ⟨ha, hb⟩ := h _ hcmem
        simp only [impulse_one]
        rw [getD_set_ne _ _ _ _ hb, getD_set_ne _ _ _ _ ha]
  exact main (List.range contacts.length) (fun i hi => List.mem_range.1 hi) cs

theorem solve_contacts_getD_avoid (cs : List collider) (contacts : List contact)
    (r : ℝ) (k : ℕ) (h : ∀ c ∈ contacts, c.a ≠ k ∧ c.b ≠ k) :
    (solve_contacts cs contacts r).getD k default = cs.getD k default := by
  simp only [solve_contacts]
  by_cases hN : contacts.length = 0
  · rw [if_pos hN]
  · rw [if_neg hN]
    exact apply_impulses_getD_avoid _ _ _ k h

theorem fix_one_getD_avoid (cs : List collider) (c : contact) (k : ℕ)
    (ha : c.a ≠ k) (hb : c.b ≠ k) :
    (fix_one cs c).getD k default = cs.getD k default := by
  by_cases hp : c.penetration ≤ 0
  · simp [fix_one, if_pos hp]
  · simp only [fix_one, if_neg hp]
    rw [getD_set_ne _ _ _ _ hb, getD_set_ne _ _ _ _ ha]

theorem fix_positions_getD_avoid (cs : List collider) (contacts : List contact)
    (k : ℕ) (h : ∀ c ∈ contacts, c.a ≠ k ∧ c.b ≠ k) :
    (fix_positions cs contacts).getD k default = cs.getD k default := by
  simp only [fix_positions]
  induction contacts generalizing cs with
  | nil => rfl
  | cons c rest ih =>
      rw [List.foldl_cons,
        ih (fix_one cs c) (fun x hx => h x (List.mem_cons_of_mem c hx))]
      obtain ⟨ha, hb⟩ := h c (List.mem_cons_self c rest)
      exact fix_one_getD_avoid cs c k ha hb

theorem integrate_getD_dyn (dt : ℝ) (cs : List collider) (k : ℕ) (p v : Vec2)
    (m : ℝ) (sh : shape_kind) (hlen : k < cs.length)
    (hk : cs.getD k default = ⟨p, body_kind.dynamic_body v m, sh⟩) :
    (integrate dt cs).getD k default = ⟨p + dt • v, body_kind.dynamic_body v m, sh⟩ := by
  simp only [integrate]
  rw [map_getD_lt _ cs k hlen, hk]

theorem damp_getD_dyn (dt : ℝ) (cs : List collider) (k : ℕ) (p v : Vec2)
    (m : ℝ) (sh : shape_kind) (hlen : k < cs.length)
    (hk : cs.getD k default = ⟨p, body_kind.dynamic_body v m, sh⟩) :
    (damp dt cs).getD k default = ⟨p, body_kind.dynamic_body (damp_vel dt v) m, sh⟩ := by
  simp only [damp]
  rw [map_getD_lt _ cs k hlen, hk]
  rfl

/-- One substep for a dynamic body at index `k`, in an arbitrary body set,
that collides with nothing in the post-integration state: its position is
integrated and its velocity damped exactly as for a lone body, whatever
happens to the other bodies. -/
theorem substep_free_getD (dt : ℝ) (cs cs' : List collider) (k : ℕ) (p v : Vec2)
    (m : ℝ) (sh : shape_kind)
    (hk : cs.getD k default = ⟨p, body_kind.dynamic_body v m, sh⟩)
    (hfree : ∀ j, j < cs.length → j ≠ k →
      collision_test ((integrate dt cs).getD (min k j) default)
        ((integrate dt cs).getD (max k j) default) = Except.ok none)
    (hstep : substep dt cs = Except.ok cs') :
    cs'.getD k default
      = ⟨p + dt • v, body_kind.dynamic_body (damp_vel dt v) m, sh⟩ := by
  have hlenk : k < cs.length := k_lt_of_dyn cs k p v m sh hk
  have hlen1 : (integrate dt cs).length = cs.length := integrate_length dt cs
  have hk1 : (integrate dt cs).getD k default
      = ⟨p + dt • v, body_kind.dynamic_body v m, sh⟩ :=
    integrate_getD_dyn dt cs k p v m sh hlenk hk
  have hfree1 : ∀ j, j < (integrate dt cs).length → j ≠ k →
      collision_test ((integrate dt cs).getD (min k j) default)
        ((integrate dt cs).getD (max k j) default) = Except.ok none := by
    intro j hj hne
    exact hfree j (by rw [← hlen1]; exact hj) hne
  simp only [substep] at hstep
  rcases hproc : process_pairs dt (all_pairs (integrate dt cs).length)
      (integrate dt cs, []) with msg | s2
  · rw [hproc] at hstep
    simp only [Except.map] at hstep
    exact Except.noConfusion hstep
  · rw [hproc] at hstep
    simp only [Except.map] at hstep
    rcases Except.ok.inj hstep with rfl
    have hinv := process_pairs_free dt k (integrate dt cs) hfree1
      (all_pairs (integrate dt cs).length) (all_pairs_mem _)
      (integrate dt cs, []) s2 rfl (fun a b => rfl) rfl
      (fun c hc => absurd hc (List.not_mem_nil c)) hproc
    have hlen2 : s2.1.length = cs.length := by
      have := process_pairs_ok_length dt _ _ _ hproc
      simp only at this
      rw [this, hlen1]
    have hsolve : (solve_contacts s2.1 s2.2 0.8).getD k default
        = ⟨p + dt • v, body_kind.dynamic_body v m, sh⟩ := by
      rw [solve_contacts_getD_avoid _ _ _ k hinv.2, hinv.1, hk1]
    have hfix : (fix_positions (solve_contacts s2.1 s2.2 0.8) s2.2).getD k default
        = ⟨p + dt • v, body_kind.dynamic_body v m, sh⟩ := by
      rw [fix_positions_getD_avoid _ _ k hinv.2, hsolve]
    have hlen3 : k < (fix_positions (solve_contacts s2.1 s2.2 0.8) s2.2).length := by
      rw [fix_positions_length, solve_contacts_length, hlen2]
      exact hlenk
    exact damp_getD_dyn dt _ k (p + dt • v) v m sh hlen3 hfix

/-- Index `k` participates in no contacts and no attractor interactions during
`n` successive substeps of length `dt`: at each substep the post-integration
state pairs `k` with nothing, and the property persists along the run. -/
def free_run (dt : ℝ) (k : ℕ) : ℕ → List collider → Prop
  | 0, _ => True
  | Nat.succ n, cs =>
      (∀ j, j < cs.length → j ≠ k →
        collision_test ((integrate dt cs).getD (min k j) default)
          ((integrate dt cs).getD (max k j) default) = Except.ok none)
      ∧ (∀ cs', substep dt cs = Except.ok cs' → free_run dt k n cs')

/-- Index `k` participates in no contacts and no attractor interactions during
`n` successive calls to `step frame_dt`. -/
def free_frames (frame_dt : ℝ) (k : ℕ) : ℕ → List collider → Prop
  | 0, _ => True
  | Nat.succ n, cs =>
      free_run (frame_dt / 20) k 20 cs
      ∧ (∀ cs', step frame_dt cs = Except.ok cs' → free_frames frame_dt k n cs')

/-- Over `n` free substeps, entry `k`'s velocity is the `n`-fold damping
iterate of its initial velocity. -/
theorem run_substeps_free_getD (dt : ℝ) :
    ∀ (n : ℕ) (cs cs' : List collider) (k : ℕ) (p v : Vec2) (m : ℝ) (sh : shape_kind),
      cs.getD k default = ⟨p, body_kind.dynamic_body v m, sh⟩ →
      free_run dt k n cs →
      run_substeps dt n cs = Except.ok cs' →
      ∃ p', cs'.getD k default
        = ⟨p', body_kind.dynamic_body ((damp_vel dt)^[n] v) m, sh⟩ := by
  intro n
  induction n with
  | zero =>
      intro cs cs' k p v m sh hk _ hrun
      rcases Except.ok.inj hrun with rfl
      exact ⟨p, by simpa using hk⟩
  | succ n ih =>
      intro cs cs' k p v m sh hk hfr hrun
      obtain ⟨hfree, hnext⟩ := hfr
      rcases hsub : substep dt cs with msg | cs1
      · simp only [run_substeps, hsub, Except.bind] at hrun
        exact Except.noConfusion hrun
      · simp only [run_substeps, hsub, Except.bind] at hrun
        have hk1 := substep_free_getD dt cs cs1 k p v m sh hk hfree hsub
        rcases ih cs1 cs' k (p + dt • v) (damp_vel dt v) m sh hk1 (hnext cs1 hsub) hrun
          with ⟨p', hp'⟩
        refine ⟨p', ?_⟩
        rw [Function.iterate_succ_apply]
        exact hp'

/-- Over free substeps, an entry with zero velocity keeps exactly zero
velocity and its position never changes. -/
theorem run_substeps_free_zero (dt : ℝ) :
    ∀ (n : ℕ) (cs cs' : List collider) (k : ℕ) (p : Vec2) (m : ℝ) (sh : shape_kind),
      cs.getD k default = ⟨p, body_kind.dynamic_body 0 m, sh⟩ →
      free_run dt k n cs →
      run_substeps dt n cs = Except.ok cs' →
      cs'.getD k default = ⟨p, body_kind.dynamic_body 0 m, sh⟩ := by
  intro n
  induction n with
  | zero =>
      intro cs cs' k p m sh hk _ hrun
      rcases Except.ok.inj hrun with rfl
      exact hk
  | succ n ih =>
      intro cs cs' k p m sh hk hfr hrun
      obtain ⟨hfree, hnext⟩ := hfr
      rcases hsub : substep dt cs with msg | cs1
      · simp only [run_substeps, hsub, Except.bind] at hrun
        exact Except.noConfusion hrun
      · simp only [run_substeps, hsub, Except.bind] at hrun
        have hk1 := substep_free_getD dt cs cs1 k p 0 m sh hk hfree hsub
        rw [Vec2.smul_zero_vec, Vec2.add_zero_vec, damp_vel_zero] at hk1
        exact ih cs1 cs' k p m sh hk1 (hnext cs1 hsub) hrun

/-- While the damped speed stays at or above the 0.01 floor, the damping
iterate is exact exponential decay. -/
theorem damp_vel_iterate (dt : ℝ) (hdt : 0 ≤ dt) :
    ∀ (n : ℕ) (v : Vec2), 0.01 ≤ Real.exp (-1.1 * dt) ^ n * v.length →
      (damp_vel dt)^[n] v = Real.exp (-1.1 * dt) ^ n • v := by
  intro n
  induction n with
  | zero =>
      intro v _
      simp
  | succ n ih =>
      intro v h
      have he1 : 0 < Real.exp (-1.1 * dt) := Real.exp_pos _
      have hele : Real.exp (-1.1 * dt) ≤ 1 :=
        Real.exp_le_one_iff.2 (by nlinarith)
      have hpow : Real.exp (-1.1 * dt) ^ (n + 1) ≤ Real.exp (-1.1 * dt) := by
        rw [pow_succ]
        calc Real.exp (-1.1 * dt) ^ n * Real.exp (-1.1 * dt)
            ≤ 1 * Real.exp (-1.1 * dt) :=
              mul_le_mul_of_nonneg_right (pow_le_one₀ (le_of_lt he1) hele) (le_of_lt he1)
          _ = Real.exp (-1.1 * dt) := one_mul _
      have hfv : damp_vel dt v = Real.exp (-1.1 * dt) • v := by
        simp only [damp_vel]
        rw [if_neg]
        rw [length_smul_nonneg _ (le_of_lt he1)]
        push_neg
        calc (0.01 : ℝ) ≤ Real.exp (-1.1 * dt) ^ (n + 1) * v.length := h
          _ ≤ Real.exp (-1.1 * dt) * v.length :=
              mul_le_mul_of_nonneg_right hpow (Vec2.length_nonneg v)
      have hcond : 0.01 ≤ Real.exp (-1.1 * dt) ^ n
          * (Real.exp (-1.1 * dt) • v).length := by
        rw [length_smul_nonneg _ (le_of_lt he1)]
        calc (0.01 : ℝ) ≤ Real.exp (-1.1 * dt) ^ (n + 1) * v.length := h
          _ = Real.exp (-1.1 * dt) ^ n * (Real.exp (-1.1 * dt) * v.length) := by
              rw [pow_succ]; ring
      rw [Function.iterate_succ_apply, hfv, ih (Real.exp (-1.1 * dt) • v) hcond,
        Vec2.smul_smul_vec, ← pow_succ]

/-- The 20 substep dampings of one frame compose to `exp(-1.1·frame_dt)`. -/
theorem exp_pow_20 (frame_dt : ℝ) :
    Real.exp (-1.1 * (frame_dt / 20)) ^ 20 = Real.exp (-1.1 * frame_dt) := by
  rw [← exp_pow_aux]
  congr 1
  push_cast
  ring

/-- One full frame step of a non-participating dynamic body above the
velocity floor: position existential, speed decayed by exactly
`exp(-1.1·frame_dt)`. -/
theorem step_free_getD (frame_dt : ℝ) (hdt : 0 ≤ frame_dt) (cs cs' : List collider)
    (k : ℕ) (p v : Vec2) (m : ℝ) (sh : shape_kind)
    (hk : cs.getD k default = ⟨p, body_kind.dynamic_body v m, sh⟩)
    (hfr : free_run (frame_dt / 20) k 20 cs)
    (hstep : step frame_dt cs = Except.ok cs')
    (hfloor : 0.01 ≤ Real.exp (-1.1 * frame_dt) * v.length) :
    ∃ p', cs'.getD k default
      = ⟨p', body_kind.dynamic_body (Real.exp (-1.1 * frame_dt) • v) m, sh⟩ := by
  have hdt20 : 0 ≤ frame_dt / 20 := by linarith
  rcases run_substeps_free_getD (frame_dt / 20) 20 cs cs' k p v m sh hk hfr hstep
    with ⟨p', hp'⟩
  refine ⟨p', ?_⟩
  rw [hp', damp_vel_iterate (frame_dt / 20) hdt20 20 v (by rw [exp_pow_20]; exact hfloor),
    exp_pow_20]

/-- Over `n` free frame steps above the velocity floor, the speed decays by
exactly `exp(-1.1·(n·frame_dt))`. -/
theorem nsteps_free_getD (frame_dt : ℝ) (hdt : 0 ≤ frame_dt) :
    ∀ (n : ℕ) (cs cs' : List collider) (k : ℕ) (p v : Vec2) (m : ℝ) (sh : shape_kind),
      cs.getD k default = ⟨p, body_kind.dynamic_body v m, sh⟩ →
      free_frames frame_dt k n cs →
      nsteps frame_dt n cs = Except.ok cs' →
      0.01 ≤ Real.exp (-1.1 * (n * frame_dt)) * v.length →
      ∃ p', cs'.getD k default
        = ⟨p', body_kind.dynamic_body (Real.exp (-1.1 * (n * frame_dt)) • v) m, sh⟩ := by
  intro n
  induction n with
  | zero =>
      intro cs cs' k p v m sh hk _ hrun _
      rcases Except.ok.inj hrun with rfl
      refine ⟨p, ?_⟩
      rw [show ((0 : ℕ) : ℝ) * frame_dt = 0 by push_cast; ring, mul_zero,
        Real.exp_zero, Vec2.one_smul_vec]
      exact hk
  | succ n ih =>
      intro cs cs' k p v m sh hk hfr hrun hfloor
      obtain ⟨hfr20, hnext⟩ := hfr
      have he1 : 0 < Real.exp (-1.1 * frame_dt) := Real.exp_pos _
      have hele : Real.exp (-1.1 * frame_dt) ≤ 1 :=
        Real.exp_le_one_iff.2 (by nlinarith)
      rw [exp_pow_aux] at hfloor
      have hpow : Real.exp (-1.1 * frame_dt) ^ (n + 1) ≤ Real.exp (-1.1 * frame_dt) := by
        rw [pow_succ]
        calc Real.exp (-1.1 * frame_dt) ^ n * Real.exp (-1.1 * frame_dt)
            ≤ 1 * Real.exp (-1.1 * frame_dt) :=
              mul_le_mul_of_nonneg_right (pow_le_one₀ (le_of_lt he1) hele) (le_of_lt he1)
          _ = Real.exp (-1.1 * frame_dt) := one_mul _
      rcases hstep : step frame_dt cs with msg | cs1
      · simp only [nsteps, hstep, Except.bind] at hrun
        exact Except.noConfusion hrun
      · simp only [nsteps, hstep, Except.bind] at hrun
        have hstepfloor : 0.01 ≤ Real.exp (-1.1 * frame_dt) * v.length :=
          le_trans hfloor (mul_le_mul_of_nonneg_right hpow (Vec2.length_nonneg v))
        rcases step_free_getD frame_dt hdt cs cs1 k p v m sh hk hfr20 hstep hstepfloor
          with ⟨p1, hk1⟩
        have hcond : 0.01 ≤ Real.exp (-1.1 * ((n : ℝ) * frame_dt))
            * (Real.exp (-1.1 * frame_dt) • v).length := by
          rw [exp_pow_aux, length_smul_nonneg _ (le_of_lt he1)]
          calc (0.01 : ℝ) ≤ Real.exp (-1.1 * frame_dt) ^ (n + 1) * v.length := hfloor
            _ = Real.exp (-1.1 * frame_dt) ^ n
                * (Real.exp (-1.1 * frame_dt) * v.length) := by
                rw [pow_succ]; ring
        rcases ih cs1 cs' k p1 (Real.exp (-1.1 * frame_dt) • v) m sh hk1
          (hnext cs1 hstep) hrun hcond with ⟨p', hp'⟩
        refine ⟨p', ?_⟩
        have hv : Real.exp (-1.1 * ((n : ℝ) * frame_dt)) • (Real.exp (-1.1 * frame_dt) • v)
            = Real.exp (-1.1 * (((n : ℕ) + 1 : ℕ) * frame_dt)) • v := by
          rw [Vec2.smul_smul_vec, exp_pow_aux, exp_pow_aux, ← pow_succ]
        rw [hp', hv]

/-- A non-participating dynamic body with zero velocity is exactly fixed by
any number of free frame steps. -/
theorem nsteps_free_zero (frame_dt : ℝ) :
    ∀ (n : ℕ) (cs cs' : List collider) (k : ℕ) (p : Vec2) (m : ℝ) (sh : shape_kind),
      cs.getD k default = ⟨p, body_kind.dynamic_body 0 m, sh⟩ →
      free_frames frame_dt k n cs →
      nsteps frame_dt n cs = Except.ok cs' →
      cs'.getD k default = ⟨p, body_kind.dynamic_body 0 m, sh⟩ := by
  intro n
  induction n with
  | zero =>
      intro cs cs' k p m sh hk _ hrun
      rcases Except.ok.inj hrun with rfl
      exact hk
  | succ n ih =>
      intro cs cs' k p m sh hk hfr hrun
      obtain ⟨hfr20, hnext⟩ := hfr
      rcases hstep : step frame_dt cs with msg | cs1
      · simp only [nsteps, hstep, Except.bind] at hrun
        exact Except.noConfusion hrun
      · simp only [nsteps, hstep, Except.bind] at hrun
        have hk1 := run_substeps_free_zero (frame_dt / 20) 20 cs cs1 k p m sh hk hfr20 hstep
        exact ih cs1 cs' k p m sh hk1 (hnext cs1 hstep) hrun

/-- C8: damping and velocity floor.  For every dynamic body, at index `k` of
an arbitrary body set, that participates in no contacts and no attractor
interactions (`free_run`/`free_frames`: every substep's post-integration
collision tests pairing `k` return no contact): (1) each of the 20 substeps
of `step frame_dt` integrates its position and multiplies its velocity by
`exp(-1.1·frame_dt/20)`, then zeroes it exactly when the damped speed is
below 0.01, whatever happens to the other bodies; (2) over `n` calls to
`step` (`N = n·frame_dt` seconds) with the damped speed staying at or above
the floor, its speed is exactly `s·exp(-1.1·N)`; (3) once its velocity is
exactly zero it remains exactly zero and its position no longer changes. -/
theorem C8_damping_velocity_floor :
    (∀ (frame_dt : ℝ) (cs cs' : List collider) (k : ℕ) (p v : Vec2) (m : ℝ)
        (sh : shape_kind),
      cs.getD k default = ⟨p, body_kind.dynamic_body v m, sh⟩ →
      (∀ j, j < cs.length → j ≠ k →
        collision_test ((integrate (frame_dt / 20) cs).getD (min k j) default)
          ((integrate (frame_dt / 20) cs).getD (max k j) default) = Except.ok none) →
      substep (frame_dt / 20) cs = Except.ok cs' →
      cs'.getD k default
        = ⟨p + (frame_dt / 20) • v,
            body_kind.dynamic_body
              (if (Real.exp (-1.1 * (frame_dt / 20)) • v).length < 0.01 then 0
                else Real.exp (-1.1 * (frame_dt / 20)) • v) m, sh⟩)
    ∧ (∀ (frame_dt : ℝ), 0 ≤ frame_dt →
        ∀ (n : ℕ) (cs cs' : List collider) (k : ℕ) (p v : Vec2) (m : ℝ)
          (sh : shape_kind),
        cs.getD k default = ⟨p, body_kind.dynamic_body v m, sh⟩ →
        free_frames frame_dt k n cs →
        nsteps frame_dt n cs = Except.ok cs' →
        0.01 ≤ Real.exp (-1.1 * (n * frame_dt)) * v.length →
        ∃ p', cs'.getD k default
            = ⟨p', body_kind.dynamic_body (Real.exp (-1.1 * (n * frame_dt)) • v) m, sh⟩
          ∧ (Real.exp (-1.1 * (n * frame_dt)) • v).length
            = Real.exp (-1.1 * (n * frame_dt)) * v.length)
    ∧ (∀ (frame_dt : ℝ) (n : ℕ) (cs cs' : List collider) (k : ℕ) (p : Vec2) (m : ℝ)
        (sh : shape_kind),
        cs.getD k default = ⟨p, body_kind.dynamic_body 0 m, sh⟩ →
        free_frames frame_dt k n cs →
        nsteps frame_dt n cs = Except.ok cs' →
        cs'.getD k default = ⟨p, body_kind.dynamic_body 0 m, sh⟩) := by
  refine ⟨?_, ?_, ?_⟩
  · intro frame_dt cs cs' k p v m sh hk hfree hstep
    exact substep_free_getD (frame_dt / 20) cs cs' k p v m sh hk hfree hstep
  · intro frame_dt hdt n cs cs' k p v m sh hk hfr hrun hfloor
    rcases nsteps_free_getD frame_dt hdt n cs cs' k p v m sh hk hfr hrun hfloor
      with ⟨p', hp'⟩
    exact ⟨p', hp', length_smul_nonneg _ (le_of_lt (Real.exp_pos _)) v⟩
  · intro frame_dt n cs cs' k p m sh hk hfr hrun
    exact nsteps_free_zero frame_dt n cs cs' k p m sh hk hfr hrun

/-- A world of at most one body: index 0 trivially participates in nothing
during any run of substeps. -/
theorem free_run_of_short (dt : ℝ) : ∀ (n : ℕ) (cs : List collider),
    cs.length ≤ 1 → free_run dt 0 n cs := by
  intro n
  induction n with
  | zero => intro cs _; trivial
  | succ n ih =>
      intro cs hlen
      refine ⟨?_, ?_⟩
      · intro j hj hne
        exact absurd (Nat.lt_one_iff.1 (lt_of_lt_of_le hj hlen)) hne
      · intro cs' hcs'
        exact ih cs' (by rw [substep_ok_length dt cs cs' hcs']; exact hlen)

/-- A world of at most one body: index 0 trivially participates in nothing
during any number of frame steps. -/
theorem free_frames_of_short (frame_dt : ℝ) : ∀ (n : ℕ) (cs : List collider),
    cs.length ≤ 1 → free_frames frame_dt 0 n cs := by
  intro n
  induction n with
  | zero => intro cs _; trivial
  | succ n ih =>
      intro cs hlen
      refine ⟨free_run_of_short _ 20 cs hlen, ?_⟩
      intro cs' hcs'
      exact ih cs' (by
        rw [run_substeps_ok_length (frame_dt / 20) 20 cs cs' hcs']
        exact hlen)

theorem length_one_zero : (⟨1, 0⟩ : Vec2).length = 1 := by
  simp only [Vec2.length, Vec2.dot]
  rw [show (1 : ℝ) * 1 + 0 * 0 = 1 by norm_num]
  exact Real.sqrt_one

/-- With a zero-length frame, the unit-speed ball is a substep fixpoint. -/
theorem substep_zero_ball :
    substep 0 [mk_ball ⟨0, 0⟩ ⟨1, 0⟩ 1 (shape_kind.circle_shape 1)]
      = Except.ok [mk_ball ⟨0, 0⟩ ⟨1, 0⟩ 1 (shape_kind.circle_shape 1)] := by
  rw [substep_singleton, Vec2.zero_smul_vec, Vec2.add_zero_vec,
    show (-1.1 : ℝ) * 0 = 0 by norm_num, Real.exp_zero, Vec2.one_smul_vec,
    if_neg (by rw [length_one_zero]; norm_num)]

theorem run_substeps_zero_ball (n : ℕ) :
    run_substeps 0 n [mk_ball ⟨0, 0⟩ ⟨1, 0⟩ 1 (shape_kind.circle_shape 1)]
      = Except.ok [mk_ball ⟨0, 0⟩ ⟨1, 0⟩ 1 (shape_kind.circle_shape 1)] := by
  induction n with
  | zero => rfl
  | succ n ih =>
      show (substep 0 _).bind (run_substeps 0 n) = _
      rw [substep_zero_ball]
      simpa [Except.bind] using ih

theorem nsteps_zero_one :
    nsteps 0 1 [mk_ball ⟨0, 0⟩ ⟨1, 0⟩ 1 (shape_kind.circle_shape 1)]
      = Except.ok [mk_ball ⟨0, 0⟩ ⟨1, 0⟩ 1 (shape_kind.circle_shape 1)] := by
  show (step 0 _).bind (nsteps 0 0) = _
  rw [step, show ((0 : ℝ) / 20) = 0 by norm_num, run_substeps_zero_ball]
  rfl

/-- Witness for C8: one zero-length frame step of the unit-speed ball (a
one-body world trivially participates in nothing) stays above the floor with
speed exactly `exp(0) = 1`. -/
theorem C8_witness :
    ∃ p', ([mk_ball ⟨0, 0⟩ ⟨1, 0⟩ 1 (shape_kind.circle_shape 1)]).getD 0 default
        = ⟨p', body_kind.dynamic_body
            (Real.exp (-1.1 * ((1 : ℕ) * 0)) • ⟨1, 0⟩) 1, shape_kind.circle_shape 1⟩
      ∧ (Real.exp (-1.1 * ((1 : ℕ) * 0)) • (⟨1, 0⟩ : Vec2)).length
        = Real.exp (-1.1 * ((1 : ℕ) * 0)) * (⟨1, 0⟩ : Vec2).length := by
  refine C8_damping_velocity_floor.2.1 0 le_rfl 1
    [mk_ball ⟨0, 0⟩ ⟨1, 0⟩ 1 (shape_kind.circle_shape 1)]
    [mk_ball ⟨0, 0⟩ ⟨1, 0⟩ 1 (shape_kind.circle_shape 1)]
    0 ⟨0, 0⟩ ⟨1, 0⟩ 1 (shape_kind.circle_shape 1) rfl
    (free_frames_of_short 0 1 _ (by norm_num)) nsteps_zero_one ?_
  rw [length_one_zero]
  norm_num [Real.exp_zero]

/-- Witness for C7: a lone static box is unchanged by a full frame step. -/
theorem C7_witness :
    ∃ cs' : List collider, step (1/60) [statbox] = Except.ok cs'
      ∧ cs'.getD 0 default = [statbox].getD 0 default := by
  refine ⟨[statbox], run_substeps_statbox _ 20, ?_⟩
  refine C7_step_preserves_nondynamic (1/60) [statbox] [statbox] ?_
    (run_substeps_statbox _ 20) 0 rfl
  intro c hc vel m hbody
  rcases List.mem_singleton.1 hc with rfl
  exact body_kind.noConfusion hbody

end

end snooker
